import Mathlib

/-!
Verification development for a minimal fine-grained reactive runtime
(signals / reactors, file src/signals.mjs).

The JavaScript source is shallowly embedded as follows.

* Machine state (the module-level globals listenersMap, computeMap,
  computeStack, signals, reactStack, plus the heap of plain objects and
  the proxy-to-target table) becomes the structure St, with association
  lists standing in for WeakMaps and JS Sets (a JS Set is an
  insertion-ordered duplicate-free list).
* A JS object is a list of own properties together with one level of its
  prototype chain: property reads (target[p]) fall through to the
  prototype, Object.hasOwn consults only the own list, assignment and
  delete touch only the own list, exactly as in the host language.
  Host Proxy semantics are modelled precisely: the get and set traps
  receive a receiver argument (the proxy), but the has and
  deleteProperty traps are invoked with only (target, property), so the
  handler's receiver parameter is undefined there — with the WeakMap
  consequences spelled out at signalHas and signalDelete below.
* User computations passed to update are deeply embedded as FnCode, a
  free-monad style syntax whose operations are exactly the interactions a
  computation can have with the runtime: proxied get/set/delete on a
  signal, a nested update call, and raw (untracked) access to plain
  objects.
* The mutually recursive control flow (a set triggers notifySet, which
  re-runs reactors, which run user code, which may set again) is given a
  fuel parameter; every recursive call consumes one unit of fuel, and
  exhaustion is reported as the distinguished outcome Err.outOfFuel.
  JS exceptions do not roll back heap or global state, so every
  interpreter function returns its final state even on error.
* Each interpreter function also emits a trace of observable events:
  dependency-edge registrations, value-changing stores, and reactor
  invocations.  The specification claims about "notifying", "triggering"
  and "re-running" are stated over these traces.
-/

namespace SignalReact

/-- Decidable equality for Except values, used to evaluate interpreter
outcomes on concrete inputs. -/
instance exceptDecEq {e a : Type} [DecidableEq e] [DecidableEq a] :
    DecidableEq (Except e a) := fun x y =>
  match x, y with
  | .ok u, .ok v =>
    if h : u = v then .isTrue (by rw [h]) else .isFalse (by intro hh; cases hh; exact h rfl)
  | .ok _, .error _ => .isFalse (by intro hh; cases hh)
  | .error _, .ok _ => .isFalse (by intro hh; cases hh)
  | .error u, .error v =>
    if h : u = v then .isTrue (by rw [h]) else .isFalse (by intro hh; cases hh; exact h rfl)

/-- Lookup in an association list (the first matching key wins, as in a
JS Map or plain-object key lookup). -/
def getA {α β : Type} [DecidableEq α] : List (α × β) → α → Option β
  | [], _ => none
  | (k, v) :: rest, k' => if k = k' then some v else getA rest k'

/-- Update an association list at a key: an existing binding is replaced
in place, a new binding is appended at the end (JS property-assignment
order). -/
def setA {α β : Type} [DecidableEq α] : List (α × β) → α → β → List (α × β)
  | [], k, v => [(k, v)]
  | (k', v') :: rest, k, v =>
    if k' = k then (k, v) :: rest else (k', v') :: setA rest k v

/-- Remove all bindings of a key from an association list (JS delete). -/
def delA {α β : Type} [DecidableEq α] (l : List (α × β)) (k : α) : List (α × β) :=
  l.filter (fun kv => kv.1 ≠ k)

/-- Adding an element to a JS Set: appended at the end if absent,
left in place if already present. -/
def addToSet (l : List Nat) (x : Nat) : List Nat :=
  if x ∈ l then l else l ++ [x]

/-- JS values, as far as the runtime distinguishes them: undefined,
primitives compared by value, and references to plain objects compared by
identity.  Strict equality (===) is DecidableEq on this type. -/
inductive Val where
  | undefined : Val
  | num : Int → Val
  | str : String → Val
  | obj : Nat → Val
  deriving DecidableEq

/-- A JS object: its own properties and one level of its prototype
chain (enough to model the host behaviours the handlers rely on:
property reads fall through to the prototype, Object.hasOwn does not). -/
structure Obj where
  own : List (String × Val)
  proto : List (String × Val)
  deriving DecidableEq

/-- The host-language read target[p]: the own property if present
(even when its value is undefined), otherwise the prototype property,
otherwise undefined. -/
def objRead (o : Obj) (p : String) : Val :=
  match getA o.own p with
  | some v => v
  | none =>
    match getA o.proto p with
    | some v => v
    | none => .undefined

/-- The host-language test Object.hasOwn(target, p): own properties
only, the prototype chain is not consulted. -/
def objHasOwn (o : Obj) (p : String) : Bool :=
  (getA o.own p).isSome

/-- Modelled from the spec: the membership result of the JS operator
(p in target), which does include properties inherited from the
prototype chain.  The spec's read contract says the has trap forwards
this underlying membership result; the source instead uses
Object.hasOwn.  This definition exists only to compare the two. -/
def hasChain (o : Obj) (p : String) : Bool :=
  (getA o.own p).isSome || (getA o.proto p).isSome

/-- Observable events of a run: a dependency edge registered for a
reactor on (signal, property), a value-changing store on (signal,
property) performed by the set trap before it notifies, and the
invocation of a reactor. -/
inductive Evt where
  | reg : Nat → Nat → String → Evt
  | write : Nat → String → Evt
  | invoke : Nat → Evt
  deriving DecidableEq

/-- Runtime errors: the explicit recursive-invocation error thrown by
update, the host TypeError thrown by WeakMap.set on a non-object key
(reached by the has trap inside a reactor, whose receiver argument is
undefined), and exhaustion of the interpreter fuel (standing for
unbounded synchronous recursion in the source). -/
inductive Err where
  | recursiveReact : Nat → Err
  | typeError : Err
  | outOfFuel : Err
  deriving DecidableEq

/-- The whole mutable state of the module: the heap of plain objects,
the proxy-to-target table, the two listener indexes, the dependency
tracker stack, the run-guard stack, the memoized output signals, the
reactor closures created by update, and a fresh-identity counter. -/
structure St where
  objs : List (Nat × Obj)
  sigTarget : List (Nat × Nat)
  listeners : List (Nat × List (String × List Nat))
  computeMap : List (Nat × List (String × List Nat))
  computeStack : List Nat
  reactStack : List Nat
  outSignals : List (Nat × Nat)
  reactors : List (Nat × (Nat × Nat))
  nextId : Nat
  deriving DecidableEq

/-- The object id a signal proxy wraps. -/
def targetOid (st : St) (s : Nat) : Nat :=
  (getA st.sigTarget s).getD 0

/-- The target object of a signal proxy. -/
def targetObj (st : St) (s : Nat) : Obj :=
  (getA st.objs (targetOid st s)).getD ⟨[], []⟩

/-- The assignment target[p] = v performed by the set trap: stores an
own property on the proxy target. -/
def writeOwn (st : St) (s : Nat) (p : String) (v : Val) : St :=
  let o := targetObj st s
  { st with objs := setA st.objs (targetOid st s) ({ o with own := setA o.own p v }) }

/-- The statement delete target[p] performed by the deleteProperty trap:
removes an own property of the proxy target (the prototype is never
affected). -/
def deleteOwn (st : St) (s : Nat) (p : String) : St :=
  let o := targetObj st s
  { st with objs := setA st.objs (targetOid st s) ({ o with own := delA o.own p }) }

/-- Untracked read of a plain (non-proxied) object: plain JS property
access, no trap runs. -/
def rawObjRead (st : St) (o : Nat) (p : String) : Val :=
  objRead ((getA st.objs o).getD ⟨[], []⟩) p

/-- Untracked write to a plain (non-proxied) object: plain JS property
assignment, no trap runs. -/
def rawWrite (st : St) (o : Nat) (p : String) (v : Val) : St :=
  let ob := (getA st.objs o).getD ⟨[], []⟩
  { st with objs := setA st.objs o ({ ob with own := setA ob.own p v }) }

/-- Source getListeners: the forward-edge set of reactors subscribed to
(signal, property); absent entries read as the empty set. -/
def getListeners (st : St) (s : Nat) (p : String) : List Nat :=
  (getA ((getA st.listeners s).getD []) p).getD []

/-- The back-edge set of the reactor: the signals recorded in
computeMap under this compute and property. -/
def backSignals (st : St) (c : Nat) (p : String) : List Nat :=
  (getA ((getA st.computeMap c).getD []) p).getD []

/-- Source setListeners: adds compute to the forward set of (signal,
property) and the signal to the back set of (compute, property); both
sets deduplicate. -/
def setListeners (st : St) (s : Nat) (p : String) (c : Nat) : St :=
  let m := (getA st.listeners s).getD []
  let fw := (getA m p).getD []
  let listeners := setA st.listeners s (setA m p (addToSet fw c))
  let cm := (getA st.computeMap c).getD []
  let bk := (getA cm p).getD []
  let computeMap := setA st.computeMap c (setA cm p (addToSet bk s))
  { st with listeners := listeners, computeMap := computeMap }

/-- One step of clearListeners: delete compute from the forward set of
(signal, property), if that set exists. -/
def removeListener (st : St) (s : Nat) (p : String) (c : Nat) : St :=
  match getA st.listeners s with
  | none => st
  | some m =>
    match getA m p with
    | none => st
    | some fw =>
      { st with listeners := setA st.listeners s (setA m p (fw.filter (fun x => x ≠ c))) }

/-- Source clearListeners: for every (property, signal) pair recorded in
the compute's back map, delete the compute from that forward set.  The
back map entry itself is NOT emptied, exactly as in the source. -/
def clearListeners (st : St) (c : Nat) : St :=
  match getA st.computeMap c with
  | none => st
  | some cm =>
    cm.foldl (fun acc pe => pe.2.foldl (fun acc2 s => removeListener acc2 s pe.1 c) acc) st

/-- Source notifyGet: if the dependency tracker stack is non-empty,
register an edge between (signal, property) and the reactor at its top,
emitting a registration event; otherwise a no-op. -/
def notifyGet (st : St) (s : Nat) (p : String) : St × List Evt :=
  match st.computeStack with
  | [] => (st, [])
  | c :: _ => (setListeners st s p c, [Evt.reg c s p])

/-- Source signal(v): wraps an existing heap object in a fresh proxy
identity. -/
def signal (st : St) (oid : Nat) : St × Nat :=
  ({ st with sigTarget := setA st.sigTarget st.nextId oid, nextId := st.nextId + 1 },
   st.nextId)

/-- The state a reactor run starts its computation in: previous
dependency edges cleared, the reactor pushed onto the dependency
tracker stack. -/
def reactorEnv (st : St) (rid : Nat) : St :=
  let st1 := clearListeners st rid
  { st1 with computeStack := rid :: st1.computeStack }

/-- The function id captured by the reactor closure. -/
def reactorFn (st : St) (rid : Nat) : Nat :=
  ((getA st.reactors rid).getD (0, 0)).1

/-- The output signal captured by the reactor closure. -/
def reactorOut (st : St) (rid : Nat) : Nat :=
  ((getA st.reactors rid).getD (0, 0)).2

/-- computeStack.pop(): performed after the user computation returns
normally. -/
def popFrame (st : St) : St :=
  { st with computeStack := st.computeStack.tail }

/-- The memoized lookup-or-create of the output signal for a function
id: signals.get(fn), and on a miss signal(\x7b\x7d) plus signals.set. -/
def allocOut (st : St) (f : Nat) : St × Nat :=
  match getA st.outSignals f with
  | some out => (st, out)
  | none =>
    let oid := st.nextId
    let st1a := { st with objs := setA st.objs oid ⟨[], []⟩, nextId := st.nextId + 1 }
    let ps := signal st1a oid
    ({ ps.1 with outSignals := setA ps.1.outSignals f ps.2 }, ps.2)

/-- The state update performs before running the reactor: fn pushed onto
the run-guard stack, output signal ensured, a fresh reactor closure
registered. -/
def updSt (st : St) (f : Nat) : St :=
  let st1 : St := { st with reactStack := f :: st.reactStack }
  let pr := allocOut st1 f
  { pr.1 with nextId := pr.1.nextId + 1,
              reactors := setA pr.1.reactors pr.1.nextId (f, pr.2) }

/-- The id of the fresh reactor closure created by this update call. -/
def updRid (st : St) (f : Nat) : Nat :=
  (allocOut ({ st with reactStack := f :: st.reactStack }) f).1.nextId

/-- The output signal update returns for this function id. -/
def updOut (st : St) (f : Nat) : Nat :=
  (allocOut ({ st with reactStack := f :: st.reactStack }) f).2

/-- Result of an interpreter step: the final state (JS exceptions do not
roll back state, so it is present even on error), the emitted event
trace, and the outcome. -/
structure Res (α : Type) where
  st : St
  tr : List Evt
  out : Except Err α
  deriving DecidableEq

/-- Sequencing of interpreter steps: on error the first state and trace
are returned as is (the exception propagates); on success the traces are
concatenated. -/
def bindR {α β : Type} (r : Res α) (f : St → α → Res β) : Res β :=
  match r.out with
  | .error e => ⟨r.st, r.tr, .error e⟩
  | .ok a => ⟨(f r.st a).st, r.tr ++ (f r.st a).tr, (f r.st a).out⟩

/-- Deep embedding of a user computation: the interactions it can have
with the runtime.  Continuations are ordinary Lean functions, so a
computation can depend on the values it reads. -/
inductive FnCode where
  | ret : List (String × Val) → FnCode
  | getS : Nat → String → (Val → FnCode) → FnCode
  | setS : Nat → String → Val → FnCode → FnCode
  | delS : Nat → String → FnCode → FnCode
  | callUpdate : Nat → (Nat → FnCode) → FnCode
  | rawGet : Nat → String → (Val → FnCode) → FnCode
  | rawSet : Nat → String → Val → FnCode → FnCode

/-- The get trap: first notifyGet, then return target[p] unchanged
(falling through the prototype chain, as the host read does). -/
def signalGet (st : St) (s : Nat) (p : String) : Res Val :=
  let n := notifyGet st s p
  ⟨n.1, n.2, .ok (objRead (targetObj n.1 s) p)⟩

/-- The has trap.  Unlike get and set, the Proxy machinery invokes the
has trap with only (target, property), so the handler's declared
receiver parameter is undefined and notifyGet(undefined, property) is
what actually runs.  Outside any reactor that call is a no-op and the
trap returns Object.hasOwn(target, p); inside a reactor,
setListeners(undefined, ...) reaches listenersMap.set(undefined, ...),
and WeakMap.set with a non-object key throws TypeError before any state
is mutated.  No (signal, property) edge is ever registered by has. -/
def signalHas (st : St) (s : Nat) (p : String) : Res Bool :=
  match st.computeStack with
  | [] => ⟨st, [], .ok (objHasOwn (targetObj st s) p)⟩
  | _ :: _ => ⟨st, [], .error .typeError⟩

/-- The deleteProperty trap.  The source guards on
typeof target[p] !== 'undefined' (a value read through the prototype
chain, not an existence test) and then deletes the own property.  Its
notifySet(receiver, property) call can never notify anyone: the Proxy
machinery invokes the deleteProperty trap with only (target, property),
so receiver is undefined, and listenersMap.get(undefined) (a WeakMap
read with a non-object key) is undefined, making the notify loop a
guaranteed no-op; it is therefore inlined away here.  The trap also
returns no value, so a strict-mode caller's delete statement throws a
TypeError at the call site after these effects; the model evaluates the
sloppy-mode call, where the delete expression silently yields false. -/
def signalDelete (st : St) (s : Nat) (p : String) : Res Unit :=
  if objRead (targetObj st s) p = .undefined then ⟨st, [], .ok ()⟩
  else ⟨deleteOwn st s p, [], .ok ()⟩

mutual

/-- Source notifySet: snapshot the forward set of (signal, property) and
invoke each listener in it once, in order. -/
def notifySet (fuel : Nat) (fns : Nat → FnCode) (st : St) (s : Nat) (p : String) :
    Res Unit :=
  match fuel with
  | 0 => ⟨st, [], .error .outOfFuel⟩
  | fuel + 1 => runListeners fuel fns st (getListeners st s p)
termination_by structural fuel

/-- The for-of loop of notifySet over the snapshotted listener list. -/
def runListeners (fuel : Nat) (fns : Nat → FnCode) (st : St) :
    List Nat → Res Unit
  | [] => ⟨st, [], .ok ()⟩
  | rid :: rest =>
    match fuel with
    | 0 => ⟨st, [], .error .outOfFuel⟩
    | fuel + 1 =>
      bindR (reactor fuel fns st rid) (fun st1 _ => runListeners fuel fns st1 rest)
termination_by structural fuel

/-- The reactor closure built by update: clear all previous dependency
edges, push onto the dependency tracker stack, run the user computation,
pop, and merge the result object into the output signal.  The pop
happens only on the normal-return path, exactly as in the source; on a
thrown exception the frame stays on the stack. -/
def reactor (fuel : Nat) (fns : Nat → FnCode) (st : St) (rid : Nat) : Res Unit :=
  match fuel with
  | 0 => ⟨st, [], .error .outOfFuel⟩
  | fuel + 1 =>
    let r := bindR (runCode fuel fns (reactorEnv st rid) (fns (reactorFn st rid)))
      (fun stc result => runAssign fuel fns (popFrame stc) (reactorOut st rid) result)
    ⟨r.st, Evt.invoke rid :: r.tr, r.out⟩
termination_by structural fuel

/-- Object.assign(outputSignal, result): one proxied set per own key of
the result object, in order. -/
def runAssign (fuel : Nat) (fns : Nat → FnCode) (st : St) (out : Nat) :
    List (String × Val) → Res Unit
  | [] => ⟨st, [], .ok ()⟩
  | (k, v) :: rest =>
    match fuel with
    | 0 => ⟨st, [], .error .outOfFuel⟩
    | fuel + 1 =>
      bindR (signalSet fuel fns st out k v) (fun st1 _ => runAssign fuel fns st1 out rest)
termination_by structural fuel

/-- The set trap: if the new value is strictly equal to target[p],
do nothing; otherwise store it as an own property and notify. -/
def signalSet (fuel : Nat) (fns : Nat → FnCode) (st : St) (s : Nat) (p : String)
    (v : Val) : Res Unit :=
  match fuel with
  | 0 => ⟨st, [], .error .outOfFuel⟩
  | fuel + 1 =>
    if objRead (targetObj st s) p = v then ⟨st, [], .ok ()⟩
    else
      let st1 := writeOwn st s p v
      let r := notifySet fuel fns st1 s p
      ⟨r.st, Evt.write s p :: r.tr, r.out⟩
termination_by structural fuel

/-- Source update(fn): the run-guard check (throwing the recursive
invocation error with fn as context), the push onto reactStack (never
popped, exactly as in the source), the memoized creation of the output
signal, the creation of a fresh reactor closure, its immediate
synchronous run, and the return of the output signal. -/
def update (fuel : Nat) (fns : Nat → FnCode) (st : St) (f : Nat) : Res Nat :=
  match fuel with
  | 0 => ⟨st, [], .error .outOfFuel⟩
  | fuel + 1 =>
    if f ∈ st.reactStack then ⟨st, [], .error (.recursiveReact f)⟩
    else
      let r := reactor fuel fns (updSt st f) (updRid st f)
      ⟨r.st, r.tr, r.out.map (fun _ => updOut st f)⟩
termination_by structural fuel

/-- Interpreter for user computations: each operation routes through the
corresponding trap, raw operations access the heap directly with no
tracking. -/
def runCode (fuel : Nat) (fns : Nat → FnCode) (st : St) :
    FnCode → Res (List (String × Val))
  | .ret result => ⟨st, [], .ok result⟩
  | .getS s p k =>
    match fuel with
    | 0 => ⟨st, [], .error .outOfFuel⟩
    | fuel + 1 => bindR (signalGet st s p) (fun st1 v => runCode fuel fns st1 (k v))
  | .setS s p v k =>
    match fuel with
    | 0 => ⟨st, [], .error .outOfFuel⟩
    | fuel + 1 => bindR (signalSet fuel fns st s p v) (fun st1 _ => runCode fuel fns st1 k)
  | .delS s p k =>
    match fuel with
    | 0 => ⟨st, [], .error .outOfFuel⟩
    | fuel + 1 => bindR (signalDelete st s p) (fun st1 _ => runCode fuel fns st1 k)
  | .callUpdate g k =>
    match fuel with
    | 0 => ⟨st, [], .error .outOfFuel⟩
    | fuel + 1 => bindR (update fuel fns st g) (fun st1 sid => runCode fuel fns st1 (k sid))
  | .rawGet o p k =>
    match fuel with
    | 0 => ⟨st, [], .error .outOfFuel⟩
    | fuel + 1 => runCode fuel fns st (k (rawObjRead st o p))
  | .rawSet o p v k =>
    match fuel with
    | 0 => ⟨st, [], .error .outOfFuel⟩
    | fuel + 1 => runCode fuel fns (rawWrite st o p v) k
termination_by structural fuel

end

/-- Stack integrity: a step that completes normally restores the
dependency tracker stack to what it was on entry. -/
def StackPres {α : Type} (st : St) (r : Res α) : Prop :=
  ∀ a, r.out = .ok a → r.st.computeStack = st.computeStack

/-- Forward edges grow only through registrations: any reactor found in
a forward set after a step was either there before or its registration
event appears in the step's trace. -/
def GrowReg {α : Type} (st : St) (r : Res α) : Prop :=
  ∀ c s p, c ∈ getListeners r.st s p → c ∈ getListeners st s p ∨ Evt.reg c s p ∈ r.tr

/-- Forward-to-back half of the listener-graph invariant: a reactor in
the forward set of (signal, property) has that signal in its back set. -/
def InvFB (st : St) : Prop :=
  ∀ c s p, c ∈ getListeners st s p → s ∈ backSignals st c p

/-- Back-to-forward half of the listener-graph invariant. -/
def InvBF (st : St) : Prop :=
  ∀ c s p, s ∈ backSignals st c p → c ∈ getListeners st s p

/-- The full mutual-inverse invariant claimed by the spec. -/
def Inv (st : St) : Prop := InvFB st ∧ InvBF st

/-- Well-formedness of the forward sets: JS Sets hold no duplicates. -/
def WFsets (st : St) : Prop := ∀ s p, (getListeners st s p).Nodup

/-- Recognizer for reactor-invocation events. -/
def isInvoke : Evt → Bool
  | .invoke _ => true
  | _ => false

/-- Property-name constants used by the concrete scenarios below. -/
def propP : String := "p"

/-- Second property name. -/
def propQ : String := "q"

/-- Third property name. -/
def propA : String := "a"

/-- Fourth property name. -/
def propB : String := "b"

/-- The empty initial state: no objects, no signals, empty graph and
stacks. -/
def stEmpty : St := ⟨[], [], [], [], [], [], [], [], 0⟩

/-- A function table whose every computation immediately returns the
empty object. -/
def fnsTriv : Nat → FnCode := fun _ => .ret []

/-- Successor of a numeric value (used by the self-triggering reactor). -/
def vIncr : Val → Val
  | .num n => .num (n + 1)
  | _ => .num 0

/-- A computation that reads s.p and then writes s.p to a different
value: the canonical self-triggering reactor. -/
def fnsSelf : Nat → FnCode := fun _ =>
  .getS 10 propP (fun v => .setS 10 propP (vIncr v) (.ret []))

/-- State with one signal (id 10) over the object (id 0) holding p = 0. -/
def stOneSig : St :=
  ⟨[(0, ⟨[(propP, Val.num 0)], []⟩)], [(10, 0)], [], [], [], [], [], [], 20⟩

/-- A computation that calls update on its own function id 1:
direct reentrant invocation. -/
def fnsReent : Nat → FnCode := fun _ => .callUpdate 1 (fun _ => .ret [])

/-- State whose run-guard stack already holds function id 0. -/
def stGuard : St := ⟨[], [], [], [], [], [0], [], [], 0⟩

/-- Function table for the cascade scenario: computation 1 copies s.p
into t.q; computation 2 reads both s.p and t.q. -/
def fnsCasc : Nat → FnCode := fun f =>
  if f = 1 then .getS 10 propP (fun v => .setS 11 propQ v (.ret []))
  else if f = 2 then .getS 10 propP (fun _ => .getS 11 propQ (fun _ => .ret []))
  else .ret []

/-- Cascade scenario state: reactors 20 (function 1) and 21 (function 2)
subscribed as after their initial runs; signals 10 (s), 11 (t) and the
two output signals 12, 13. -/
def stCasc : St :=
  ⟨[(0, ⟨[(propP, Val.num 0)], []⟩), (1, ⟨[(propQ, Val.num 0)], []⟩),
    (2, ⟨[], []⟩), (3, ⟨[], []⟩)],
   [(10, 0), (11, 1), (12, 2), (13, 3)],
   [(10, [(propP, [20, 21])]), (11, [(propQ, [21])])],
   [(20, [(propP, [10])]), (21, [(propP, [10]), (propQ, [11])])],
   [], [], [(1, 12), (2, 13)], [(20, (1, 12)), (21, (2, 13))], 30⟩

/-- State with one signal whose property p exists with the value
undefined (an own property storing undefined). -/
def stUndefProp : St :=
  ⟨[(0, ⟨[(propP, Val.undefined)], []⟩)], [(10, 0)], [], [], [], [], [], [], 20⟩

/-- State with one signal whose target has no own properties but
inherits p = 1 from its prototype. -/
def stProto : St :=
  ⟨[(0, ⟨[], [(propP, Val.num 1)]⟩)], [(10, 0)], [], [], [], [], [], [], 20⟩

/-- The prototype state as seen from inside a running reactor: reactor
20 is on the dependency tracker stack. -/
def stProtoReactor : St :=
  { stProto with computeStack := [20] }

/-- State for the stale-edge scenario: reactor 20 (function 1, output
signal 12) is subscribed to signal 10 property p from its previous run;
function 1 reads nothing. -/
def stStale : St :=
  ⟨[(0, ⟨[(propP, Val.num 0)], []⟩), (2, ⟨[], []⟩)],
   [(10, 0), (12, 2)],
   [(10, [(propP, [20])])],
   [(20, [(propP, [10])])],
   [], [], [(1, 12)], [(20, (1, 12))], 30⟩

/-- State with one signal whose property p holds a reference to the
plain object 7 (which itself has q = 1). -/
def stNested : St :=
  ⟨[(0, ⟨[(propP, Val.obj 7)], []⟩), (7, ⟨[(propQ, Val.num 1)], []⟩)],
   [(10, 0)], [], [], [], [], [], [], 20⟩

/-- State with one signal whose target holds a = 1 and b = 7, used for
the merge-preservation scenario. -/
def stMerge : St :=
  ⟨[(0, ⟨[(propA, Val.num 1), (propB, Val.num 7)], []⟩)],
   [(10, 0)], [], [], [], [], [], [], 20⟩

/-- State with one signal whose property p holds the number 3. -/
def stNumProp : St :=
  ⟨[(0, ⟨[(propP, Val.num 3)], []⟩)], [(10, 0)], [], [], [], [], [], [], 20⟩

/-- Listener graph obtained from the empty state by registering reactor
20 on (signal 10, property p). -/
def stReg : St := setListeners stEmpty 10 propP 20

/-- The graph after clearListeners for reactor 20 on stReg. -/
def stCleared : St := clearListeners stReg 20

/-- Executable sufficient check for the forward-to-back invariant on a
concrete state: every entry of the listeners index is mirrored in the
back map. -/
def invFBcheck (st : St) : Bool :=
  st.listeners.all (fun se =>
    se.2.all (fun pe =>
      pe.2.all (fun c => decide (se.1 ∈ backSignals st c pe.1))))

/-- Executable sufficient check that all forward sets of a concrete
state are duplicate-free. -/
def wfCheck (st : St) : Bool :=
  st.listeners.all (fun se => se.2.all (fun pe => decide pe.2.Nodup))

/-- Looking up the key just written returns the written value. -/
theorem getA_setA_self {α β : Type} [DecidableEq α] (l : List (α × β)) (k : α) (v : β) :
    getA (setA l k v) k = some v := by
  induction l with
  | nil => simp [setA, getA]
  | cons kv rest ih =>
    by_cases h : kv.1 = k
    · simp [setA, h, getA]
    · simp [setA, h, getA, ih]

/-- Looking up a different key is unaffected by a write. -/
theorem getA_setA_ne {α β : Type} [DecidableEq α] (l : List (α × β)) (k k' : α) (v : β)
    (h : k ≠ k') : getA (setA l k v) k' = getA l k' := by
  induction l with
  | nil => simp [setA, getA, h]
  | cons kv rest ih =>
    by_cases hk : kv.1 = k
    · simp [setA, hk, getA, h]
    · simp [setA, hk, getA, ih]

/-- A successful lookup exhibits a member of the association list. -/
theorem getA_mem {α β : Type} [DecidableEq α] {l : List (α × β)} {k : α} {v : β}
    (h : getA l k = some v) : (k, v) ∈ l := by
  induction l with
  | nil => simp [getA] at h
  | cons kv rest ih =>
    by_cases hk : kv.1 = k
    · rcases kv with ⟨a, b⟩
      have ha : a = k := hk
      simp [getA, ha] at h
      have hb : b = v := h
      subst ha
      subst hb
      exact List.mem_cons_self _ _
    · simp [getA, hk] at h
      exact List.mem_cons_of_mem _ (ih h)

/-- Deleting a key makes its lookup fail. -/
theorem getA_delA_self {α β : Type} [DecidableEq α] (l : List (α × β)) (k : α) :
    getA (delA l k) k = none := by
  induction l with
  | nil => simp [delA, getA]
  | cons kv rest ih =>
    by_cases hk : kv.1 = k
    · simpa [delA, hk] using ih
    · simpa [delA, hk, getA] using ih

/-- Membership in a JS-Set insertion. -/
theorem mem_addToSet {l : List Nat} {x c : Nat} :
    x ∈ addToSet l c ↔ x ∈ l ∨ x = c := by
  by_cases h : c ∈ l
  · simp [addToSet, h]
    intro hx
    subst hx
    exact h
  · simp [addToSet, h]

/-- The inserted element is a member. -/
theorem self_mem_addToSet (l : List Nat) (c : Nat) : c ∈ addToSet l c :=
  mem_addToSet.mpr (Or.inr rfl)

/-- JS-Set insertion preserves freedom from duplicates. -/
theorem nodup_addToSet {l : List Nat} (c : Nat) (h : l.Nodup) :
    (addToSet l c).Nodup := by
  by_cases hc : c ∈ l
  · simpa [addToSet, hc] using h
  · simp [addToSet, hc]
    exact List.Nodup.append h (List.nodup_singleton c) (by simpa using hc)

/-- Registering an edge leaves the dependency tracker stack alone. -/
theorem setListeners_computeStack (st : St) (s : Nat) (p : String) (c : Nat) :
    (setListeners st s p c).computeStack = st.computeStack := rfl

/-- Registering an edge touches neither the heap nor the proxy table. -/
theorem targetObj_setListeners (st : St) (s : Nat) (p : String) (c : Nat) (s' : Nat) :
    targetObj (setListeners st s p c) s' = targetObj st s' := rfl

/-- notifyGet leaves the dependency tracker stack alone. -/
theorem notifyGet_computeStack (st : St) (s : Nat) (p : String) :
    (notifyGet st s p).1.computeStack = st.computeStack := by
  cases h : st.computeStack <;> simp [notifyGet, h, setListeners_computeStack]

/-- notifyGet touches neither the heap nor the proxy table. -/
theorem targetObj_notifyGet (st : St) (s : Nat) (p : String) (s' : Nat) :
    targetObj (notifyGet st s p).1 s' = targetObj st s' := by
  cases h : st.computeStack <;> simp [notifyGet, h, targetObj_setListeners]

/-- Storing a value changes no forward sets. -/
theorem getListeners_writeOwn (st : St) (s : Nat) (p : String) (v : Val)
    (s' : Nat) (p' : String) :
    getListeners (writeOwn st s p v) s' p' = getListeners st s' p' := rfl

/-- Deleting a property changes no forward sets. -/
theorem getListeners_deleteOwn (st : St) (s : Nat) (p : String) (s' : Nat) (p' : String) :
    getListeners (deleteOwn st s p) s' p' = getListeners st s' p' := rfl

/-- A raw write changes no forward sets. -/
theorem getListeners_rawWrite (st : St) (o : Nat) (p : String) (v : Val)
    (s' : Nat) (p' : String) :
    getListeners (rawWrite st o p v) s' p' = getListeners st s' p' := rfl

/-- The forward set the registration targets grows by exactly the
registered compute. -/
theorem getListeners_setListeners_self (st : St) (s : Nat) (p : String) (c : Nat) :
    getListeners (setListeners st s p c) s p = addToSet (getListeners st s p) c := by
  simp [getListeners, setListeners, getA_setA_self]

/-- All other forward sets are untouched by a registration. -/
theorem getListeners_setListeners_ne (st : St) (s : Nat) (p : String) (c : Nat)
    (s' : Nat) (p' : String) (h : ¬(s' = s ∧ p' = p)) :
    getListeners (setListeners st s p c) s' p' = getListeners st s' p' := by
  by_cases hs : s' = s
  · subst hs
    have hp : p ≠ p' := by
      intro hpp
      exact h ⟨rfl, hpp.symm⟩
    simp [getListeners, setListeners, getA_setA_self, getA_setA_ne _ _ _ _ hp]
  · have hs' : s ≠ s' := fun hh => hs hh.symm
    simp [getListeners, setListeners, getA_setA_ne _ _ _ _ hs']

/-- Membership in a forward set after a registration. -/
theorem mem_getListeners_setListeners {st : St} {s : Nat} {p : String} {c : Nat}
    {s' : Nat} {p' : String} {x : Nat}
    (h : x ∈ getListeners (setListeners st s p c) s' p') :
    x ∈ getListeners st s' p' ∨ (x = c ∧ s' = s ∧ p' = p) := by
  by_cases hsp : s' = s ∧ p' = p
  · rcases hsp with ⟨hs, hp⟩
    subst hs
    subst hp
    rw [getListeners_setListeners_self] at h
    rcases mem_addToSet.mp h with h1 | h1
    · exact Or.inl h1
    · exact Or.inr ⟨h1, rfl, rfl⟩
  · rw [getListeners_setListeners_ne st s p c s' p' hsp] at h
    exact Or.inl h

/-- Forward sets only grow under a registration. -/
theorem getListeners_setListeners_mono {st : St} {s : Nat} {p : String} {c : Nat}
    {s' : Nat} {p' : String} {x : Nat} (h : x ∈ getListeners st s' p') :
    x ∈ getListeners (setListeners st s p c) s' p' := by
  by_cases hsp : s' = s ∧ p' = p
  · rcases hsp with ⟨hs, hp⟩
    subst hs
    subst hp
    rw [getListeners_setListeners_self]
    exact mem_addToSet.mpr (Or.inl h)
  · rw [getListeners_setListeners_ne st s p c s' p' hsp]
    exact h

/-- The back set the registration targets grows by exactly the signal. -/
theorem backSignals_setListeners_self (st : St) (s : Nat) (p : String) (c : Nat) :
    backSignals (setListeners st s p c) c p = addToSet (backSignals st c p) s := by
  simp [backSignals, setListeners, getA_setA_self]

/-- All other back sets are untouched by a registration. -/
theorem backSignals_setListeners_ne (st : St) (s : Nat) (p : String) (c : Nat)
    (c' : Nat) (p' : String) (h : ¬(c' = c ∧ p' = p)) :
    backSignals (setListeners st s p c) c' p' = backSignals st c' p' := by
  by_cases hc : c' = c
  · subst hc
    have hp : p ≠ p' := by
      intro hpp
      exact h ⟨rfl, hpp.symm⟩
    simp [backSignals, setListeners, getA_setA_self, getA_setA_ne _ _ _ _ hp]
  · have hc' : c ≠ c' := fun hh => hc hh.symm
    simp [backSignals, setListeners, getA_setA_ne _ _ _ _ hc']

/-- Back sets only grow under a registration. -/
theorem backSignals_setListeners_mono {st : St} {s : Nat} {p : String} {c : Nat}
    {c' : Nat} {p' : String} {x : Nat} (h : x ∈ backSignals st c' p') :
    x ∈ backSignals (setListeners st s p c) c' p' := by
  by_cases hcp : c' = c ∧ p' = p
  · rcases hcp with ⟨hc, hp⟩
    subst hc
    subst hp
    rw [backSignals_setListeners_self]
    exact mem_addToSet.mpr (Or.inl h)
  · rw [backSignals_setListeners_ne st s p c c' p' hcp]
    exact h

/-- Deleting a compute from one forward set removes no other members. -/
theorem mem_getListeners_removeListener {st : St} {s : Nat} {p : String} {c : Nat}
    {s' : Nat} {p' : String} {x : Nat}
    (h : x ∈ getListeners (removeListener st s p c) s' p') :
    x ∈ getListeners st s' p' := by
  unfold removeListener at h
  split at h
  · exact h
  · rename_i m hm1
    split at h
    · exact h
    · rename_i fw hm2
      by_cases hs : s' = s
      · subst hs
        unfold getListeners at h ⊢
        rw [getA_setA_self] at h
        simp only [Option.getD_some] at h
        rw [hm1]
        simp only [Option.getD_some]
        by_cases hp : p' = p
        · subst hp
          rw [getA_setA_self] at h
          simp only [Option.getD_some] at h
          rw [hm2]
          simp only [Option.getD_some]
          exact (List.mem_filter.mp h).1
        · have hp' : p ≠ p' := fun hh => hp hh.symm
          rw [getA_setA_ne _ _ _ _ hp'] at h
          exact h
      · have hs' : s ≠ s' := fun hh => hs hh.symm
        unfold getListeners at h ⊢
        rw [getA_setA_ne _ _ _ _ hs'] at h
        exact h

/-- Deleting a compute from a forward set really removes it. -/
theorem not_mem_getListeners_removeListener (st : St) (s : Nat) (p : String) (c : Nat) :
    c ∉ getListeners (removeListener st s p c) s p := by
  unfold removeListener
  split
  · rename_i hm1
    intro h
    unfold getListeners at h
    rw [hm1] at h
    simp [getA] at h
  · rename_i m hm1
    split
    · rename_i hm2
      intro h
      unfold getListeners at h
      rw [hm1] at h
      simp only [Option.getD_some] at h
      rw [hm2] at h
      simp at h
    · rename_i fw hm2
      intro h
      unfold getListeners at h
      rw [getA_setA_self] at h
      simp only [Option.getD_some] at h
      rw [getA_setA_self] at h
      simp only [Option.getD_some] at h
      simp at h

/-- Deleting a compute from a forward set touches no back sets. -/
theorem removeListener_computeMap (st : St) (s : Nat) (p : String) (c : Nat) :
    (removeListener st s p c).computeMap = st.computeMap := by
  unfold removeListener
  split
  · rfl
  · split
    · rfl
    · rfl

/-- Deleting a compute from a forward set touches neither stack. -/
theorem removeListener_computeStack (st : St) (s : Nat) (p : String) (c : Nat) :
    (removeListener st s p c).computeStack = st.computeStack := by
  unfold removeListener
  split
  · rfl
  · split
    · rfl
    · rfl

/-- The inner loop of clearListeners only removes forward-set members. -/
theorem mem_innerFold {p0 : String} {c : Nat} :
    ∀ (ss : List Nat) (st0 : St) {x : Nat} {s' : Nat} {p' : String},
      x ∈ getListeners (ss.foldl (fun acc2 s => removeListener acc2 s p0 c) st0) s' p' →
      x ∈ getListeners st0 s' p' := by
  intro ss
  induction ss with
  | nil => intro st0 x s' p' h; exact h
  | cons s0 rest ih =>
    intro st0 x s' p' h
    exact mem_getListeners_removeListener (ih (removeListener st0 s0 p0 c) h)

/-- The outer loop of clearListeners only removes forward-set members. -/
theorem mem_outerFold {c : Nat} :
    ∀ (l : List (String × List Nat)) (st0 : St) {x : Nat} {s' : Nat} {p' : String},
      x ∈ getListeners
        (l.foldl (fun acc pe => pe.2.foldl (fun acc2 s => removeListener acc2 s pe.1 c) acc) st0)
        s' p' →
      x ∈ getListeners st0 s' p' := by
  intro l
  induction l with
  | nil => intro st0 x s' p' h; exact h
  | cons pe rest ih =>
    intro st0 x s' p' h
    exact mem_innerFold pe.2 st0 (ih _ h)

/-- clearListeners only removes forward-set members. -/
theorem mem_getListeners_clearListeners {st : St} {c : Nat} {x s' : Nat} {p' : String}
    (h : x ∈ getListeners (clearListeners st c) s' p') : x ∈ getListeners st s' p' := by
  unfold clearListeners at h
  split at h
  · exact h
  · exact mem_outerFold _ st h

/-- Once the compute is absent from a forward set, the inner loop keeps
it absent. -/
theorem innerFold_keeps_out {p0 : String} {c : Nat} :
    ∀ (ss : List Nat) (st0 : St) {s' : Nat} {p' : String},
      c ∉ getListeners st0 s' p' →
      c ∉ getListeners (ss.foldl (fun acc2 s => removeListener acc2 s p0 c) st0) s' p' := by
  intro ss st0 s' p' h hmem
  exact h (mem_innerFold ss st0 hmem)

/-- Once the compute is absent from a forward set, the outer loop keeps
it absent. -/
theorem outerFold_keeps_out {c : Nat} :
    ∀ (l : List (String × List Nat)) (st0 : St) {s' : Nat} {p' : String},
      c ∉ getListeners st0 s' p' →
      c ∉ getListeners
        (l.foldl (fun acc pe => pe.2.foldl (fun acc2 s => removeListener acc2 s pe.1 c) acc) st0)
        s' p' := by
  intro l st0 s' p' h hmem
  exact h (mem_outerFold l st0 hmem)

/-- The inner loop removes the compute from the forward set of every
signal it visits. -/
theorem innerFold_removes {p0 : String} {c : Nat} :
    ∀ (ss : List Nat) (st0 : St) {s : Nat}, s ∈ ss →
      c ∉ getListeners (ss.foldl (fun acc2 s => removeListener acc2 s p0 c) st0) s p0 := by
  intro ss
  induction ss with
  | nil => intro st0 s h; simp at h
  | cons s0 rest ih =>
    intro st0 s h
    rcases List.mem_cons.mp h with h0 | h0
    · subst h0
      by_cases hr : s ∈ rest
      · exact ih (removeListener st0 s p0 c) hr
      · exact innerFold_keeps_out rest _ (not_mem_getListeners_removeListener st0 s p0 c)
    · exact ih (removeListener st0 s0 p0 c) h0

/-- The outer loop removes the compute from the forward set of every
(signal, property) pair recorded in the back map it walks. -/
theorem outerFold_removes {c : Nat} :
    ∀ (l : List (String × List Nat)) (st0 : St) {p0 : String} {ss : List Nat} {s : Nat},
      (p0, ss) ∈ l → s ∈ ss →
      c ∉ getListeners
        (l.foldl (fun acc pe => pe.2.foldl (fun acc2 s => removeListener acc2 s pe.1 c) acc) st0)
        s p0 := by
  intro l
  induction l with
  | nil => intro st0 p0 ss s h; simp at h
  | cons pe rest ih =>
    intro st0 p0 ss s hmem hs
    rcases List.mem_cons.mp hmem with h0 | h0
    · subst h0
      by_cases hr : ∃ ss', (p0, ss') ∈ rest ∧ s ∈ ss'
      · rcases hr with ⟨ss', hss', hsmem⟩
        exact ih _ hss' hsmem
      · have hout : c ∉ getListeners
            (ss.foldl (fun acc2 s => removeListener acc2 s p0 c) st0) s p0 :=
          innerFold_removes ss st0 hs
        exact outerFold_keeps_out rest _ hout
    · exact ih _ h0 hs

/-- clearListeners leaves the back map untouched, exactly as in the
source (the spec instead demands it be emptied). -/
theorem clearListeners_computeMap (st : St) (c : Nat) :
    (clearListeners st c).computeMap = st.computeMap := by
  unfold clearListeners
  split
  · rfl
  · rename_i cm hcm
    have inner : ∀ (p0 : String) (ss : List Nat) (st0 : St),
        (ss.foldl (fun acc2 s => removeListener acc2 s p0 c) st0).computeMap
          = st0.computeMap := by
      intro p0 ss
      induction ss with
      | nil => intro st0; rfl
      | cons s0 rest ih =>
        intro st0
        simp only [List.foldl_cons]
        rw [ih (removeListener st0 s0 p0 c), removeListener_computeMap]
    have outer : ∀ (l : List (String × List Nat)) (st0 : St),
        ((l.foldl (fun acc pe => pe.2.foldl (fun acc2 s => removeListener acc2 s pe.1 c) acc) st0)).computeMap
          = st0.computeMap := by
      intro l
      induction l with
      | nil => intro st0; rfl
      | cons pe rest ih =>
        intro st0
        simp only [List.foldl_cons]
        rw [ih _, inner pe.1 pe.2 st0]
    exact outer cm st

/-- clearListeners leaves the dependency tracker stack untouched. -/
theorem clearListeners_computeStack (st : St) (c : Nat) :
    (clearListeners st c).computeStack = st.computeStack := by
  unfold clearListeners
  split
  · rfl
  · rename_i cm hcm
    have inner : ∀ (p0 : String) (ss : List Nat) (st0 : St),
        (ss.foldl (fun acc2 s => removeListener acc2 s p0 c) st0).computeStack
          = st0.computeStack := by
      intro p0 ss
      induction ss with
      | nil => intro st0; rfl
      | cons s0 rest ih =>
        intro st0
        simp only [List.foldl_cons]
        rw [ih (removeListener st0 s0 p0 c), removeListener_computeStack]
    have outer : ∀ (l : List (String × List Nat)) (st0 : St),
        ((l.foldl (fun acc pe => pe.2.foldl (fun acc2 s => removeListener acc2 s pe.1 c) acc) st0)).computeStack
          = st0.computeStack := by
      intro l
      induction l with
      | nil => intro st0; rfl
      | cons pe rest ih =>
        intro st0
        simp only [List.foldl_cons]
        rw [ih _, inner pe.1 pe.2 st0]
    exact outer cm st

/-- Under the forward-to-back invariant, clearListeners removes the
compute from every forward set: the cleared reactor is subscribed to
nothing. -/
theorem clearListeners_wipe {st : St} {c : Nat} (hinv : InvFB st) (s : Nat) (p : String) :
    c ∉ getListeners (clearListeners st c) s p := by
  unfold clearListeners
  split
  · rename_i hcm
    intro h
    have hb := hinv c s p h
    unfold backSignals at hb
    rw [hcm] at hb
    simp [getA] at hb
  · rename_i cm hcm
    by_cases hc : c ∈ getListeners st s p
    · have hb := hinv c s p hc
      unfold backSignals at hb
      rw [hcm] at hb
      simp only [Option.getD_some] at hb
      cases hss : getA cm p with
      | none => rw [hss] at hb; simp at hb
      | some ss =>
        rw [hss] at hb
        simp only [Option.getD_some] at hb
        exact outerFold_removes cm st (getA_mem hss) hb
    · exact outerFold_keeps_out cm st hc

/-- bindR projection on an erroring first step. -/
theorem bindR_st_error {α β : Type} {r : Res α} {f : St → α → Res β} {e : Err}
    (h : r.out = .error e) : (bindR r f).st = r.st := by
  unfold bindR
  rw [h]

/-- bindR trace on an erroring first step. -/
theorem bindR_tr_error {α β : Type} {r : Res α} {f : St → α → Res β} {e : Err}
    (h : r.out = .error e) : (bindR r f).tr = r.tr := by
  unfold bindR
  rw [h]

/-- bindR outcome on an erroring first step. -/
theorem bindR_out_error {α β : Type} {r : Res α} {f : St → α → Res β} {e : Err}
    (h : r.out = .error e) : (bindR r f).out = .error e := by
  unfold bindR
  rw [h]

/-- bindR projection on a succeeding first step. -/
theorem bindR_st_ok {α β : Type} {r : Res α} {f : St → α → Res β} {a : α}
    (h : r.out = .ok a) : (bindR r f).st = (f r.st a).st := by
  unfold bindR
  rw [h]

/-- bindR trace on a succeeding first step. -/
theorem bindR_tr_ok {α β : Type} {r : Res α} {f : St → α → Res β} {a : α}
    (h : r.out = .ok a) : (bindR r f).tr = r.tr ++ (f r.st a).tr := by
  unfold bindR
  rw [h]

/-- bindR outcome on a succeeding first step. -/
theorem bindR_out_ok {α β : Type} {r : Res α} {f : St → α → Res β} {a : α}
    (h : r.out = .ok a) : (bindR r f).out = (f r.st a).out := by
  unfold bindR
  rw [h]

/-- A step returning its input state restores the stack trivially. -/
theorem stackPres_same {α : Type} {st : St} {tr : List Evt} {out : Except Err α} :
    StackPres st (⟨st, tr, out⟩ : Res α) :=
  fun _ _ => rfl

/-- A step returning its input state adds no forward edges. -/
theorem growReg_same {α : Type} {st : St} {tr : List Evt} {out : Except Err α} :
    GrowReg st (⟨st, tr, out⟩ : Res α) :=
  fun _ _ _ hc => Or.inl hc

/-- Stack restoration composes over sequencing. -/
theorem stackPres_bindR {α β : Type} {st : St} {r : Res α} {f : St → α → Res β}
    (h1 : StackPres st r) (h2 : ∀ a, r.out = .ok a → StackPres r.st (f r.st a)) :
    StackPres st (bindR r f) := by
  intro b hb
  cases hr : r.out with
  | error e =>
    rw [bindR_out_error hr] at hb
    cases hb
  | ok a =>
    rw [bindR_out_ok hr] at hb
    rw [bindR_st_ok hr]
    rw [h2 a hr b hb, h1 a hr]

/-- Edge growth tracking composes over sequencing. -/
theorem growReg_bindR {α β : Type} {st : St} {r : Res α} {f : St → α → Res β}
    (h1 : GrowReg st r) (h2 : ∀ a, r.out = .ok a → GrowReg r.st (f r.st a)) :
    GrowReg st (bindR r f) := by
  intro c s p hc
  cases hr : r.out with
  | error e =>
    rw [bindR_st_error hr] at hc
    rw [bindR_tr_error hr]
    exact h1 c s p hc
  | ok a =>
    rw [bindR_st_ok hr] at hc
    rw [bindR_tr_ok hr]
    rcases h2 a hr c s p hc with h | h
    · rcases h1 c s p h with h' | h'
      · exact Or.inl h'
      · exact Or.inr (List.mem_append.mpr (Or.inl h'))
    · exact Or.inr (List.mem_append.mpr (Or.inr h))

/-- Prepending an event to the trace cannot lose a registration. -/
theorem growReg_consTr {α β : Type} {st : St} {r : Res α} (h : GrowReg st r)
    (e : Evt) (out' : Except Err β) : GrowReg st (⟨r.st, e :: r.tr, out'⟩ : Res β) := by
  intro c s p hc
  rcases h c s p hc with h' | h'
  · exact Or.inl h'
  · exact Or.inr (List.mem_cons_of_mem _ h')

/-- Edge growth can be transported along states with equal forward
sets. -/
theorem growReg_of_fwd_eq {α : Type} {st st' : St} {r : Res α}
    (heq : ∀ s p, getListeners st' s p = getListeners st s p) (h : GrowReg st' r) :
    GrowReg st r := by
  intro c s p hc
  rcases h c s p hc with h' | h'
  · exact Or.inl ((heq s p) ▸ h')
  · exact Or.inr h'

/-- Forward sets only depend on the listeners index. -/
theorem getListeners_congr {st st' : St} (h : st'.listeners = st.listeners)
    (s : Nat) (p : String) : getListeners st' s p = getListeners st s p := by
  unfold getListeners
  rw [h]

/-- Storing a value leaves the tracker stack alone. -/
theorem writeOwn_computeStack (st : St) (s : Nat) (p : String) (v : Val) :
    (writeOwn st s p v).computeStack = st.computeStack := rfl

/-- Deleting a property leaves the tracker stack alone. -/
theorem deleteOwn_computeStack (st : St) (s : Nat) (p : String) :
    (deleteOwn st s p).computeStack = st.computeStack := rfl

/-- A raw write leaves the tracker stack alone. -/
theorem rawWrite_computeStack (st : St) (o : Nat) (p : String) (v : Val) :
    (rawWrite st o p v).computeStack = st.computeStack := rfl

/-- Creating the output signal leaves the tracker stack alone. -/
theorem allocOut_computeStack (st : St) (f : Nat) :
    (allocOut st f).1.computeStack = st.computeStack := by
  unfold allocOut
  split
  · rfl
  · rfl

/-- Creating the output signal leaves the listeners index alone. -/
theorem allocOut_listeners (st : St) (f : Nat) :
    (allocOut st f).1.listeners = st.listeners := by
  unfold allocOut
  split
  · rfl
  · rfl

/-- The pre-run bookkeeping of update leaves the tracker stack alone. -/
theorem updSt_computeStack (st : St) (f : Nat) :
    (updSt st f).computeStack = st.computeStack := by
  unfold updSt
  exact allocOut_computeStack _ f

/-- The pre-run bookkeeping of update leaves the listeners index alone. -/
theorem updSt_listeners (st : St) (f : Nat) :
    (updSt st f).listeners = st.listeners := by
  unfold updSt
  exact allocOut_listeners _ f

/-- The reactor entry state pushes the reactor onto the tracker stack. -/
theorem reactorEnv_computeStack (st : St) (rid : Nat) :
    (reactorEnv st rid).computeStack = rid :: st.computeStack := by
  unfold reactorEnv
  simp [clearListeners_computeStack]

/-- The reactor entry state has the cleared forward sets. -/
theorem getListeners_reactorEnv (st : St) (rid : Nat) (s : Nat) (p : String) :
    getListeners (reactorEnv st rid) s p = getListeners (clearListeners st rid) s p := rfl

/-- Popping a frame does not change forward sets. -/
theorem getListeners_popFrame (st : St) (s : Nat) (p : String) :
    getListeners (popFrame st) s p = getListeners st s p := rfl

/-- The get trap restores the tracker stack (it never modifies it). -/
theorem stackPres_signalGet (st : St) (s : Nat) (p : String) :
    StackPres st (signalGet st s p) := by
  intro v _
  exact notifyGet_computeStack st s p

/-- The has trap restores the tracker stack (it never modifies it,
returning the input state in both its branches). -/
theorem stackPres_signalHas (st : St) (s : Nat) (p : String) :
    StackPres st (signalHas st s p) := by
  intro v hv
  cases h : st.computeStack with
  | nil => simp only [signalHas, h]
  | cons c rest => simp only [signalHas, h]

/-- Any forward edge added by notifyGet is recorded in its trace. -/
theorem growReg_notifyGet (st : St) (s : Nat) (p : String) :
    ∀ c' s' p', c' ∈ getListeners (notifyGet st s p).1 s' p' →
      c' ∈ getListeners st s' p' ∨ Evt.reg c' s' p' ∈ (notifyGet st s p).2 := by
  intro c' s' p' hc
  cases hcs : st.computeStack with
  | nil =>
    simp only [notifyGet, hcs] at hc ⊢
    exact Or.inl hc
  | cons c0 rest =>
    simp only [notifyGet, hcs] at hc ⊢
    rcases mem_getListeners_setListeners hc with h | ⟨h1, h2, h3⟩
    · exact Or.inl h
    · subst h1
      subst h2
      subst h3
      simp

/-- Any forward edge added by the get trap is recorded in its trace. -/
theorem growReg_signalGet (st : St) (s : Nat) (p : String) :
    GrowReg st (signalGet st s p) :=
  fun c' s' p' hc => growReg_notifyGet st s p c' s' p' hc

/-- The has trap adds no forward edge at all. -/
theorem growReg_signalHas (st : St) (s : Nat) (p : String) :
    GrowReg st (signalHas st s p) := by
  intro c' s' p' hc
  cases h : st.computeStack with
  | nil =>
    simp only [signalHas, h] at hc
    exact Or.inl hc
  | cons c rest =>
    simp only [signalHas, h] at hc
    exact Or.inl hc

/-- The delete trap restores the tracker stack (it never modifies it). -/
theorem stackPres_signalDelete (st : St) (s : Nat) (p : String) :
    StackPres st (signalDelete st s p) := by
  intro a _
  unfold signalDelete
  split
  · rfl
  · exact deleteOwn_computeStack st s p

/-- The delete trap adds no forward edge (its notify receiver is
undefined, so its notification is a guaranteed no-op). -/
theorem growReg_signalDelete (st : St) (s : Nat) (p : String) :
    GrowReg st (signalDelete st s p) := by
  intro c' s' p' hc
  unfold signalDelete at hc
  split at hc
  · exact Or.inl hc
  · exact Or.inl hc

/-- Edge growth can be transported along a state with smaller forward
sets. -/
theorem growReg_of_fwd_sub {α : Type} {st st' : St} {r : Res α}
    (hsub : ∀ c s p, c ∈ getListeners st' s p → c ∈ getListeners st s p)
    (h : GrowReg st' r) : GrowReg st r := by
  intro c s p hc
  rcases h c s p hc with h' | h'
  · exact Or.inl (hsub c s p h')
  · exact Or.inr h'

/-- Prepending an event preserves stack restoration. -/
theorem stackPres_consTr {α : Type} {st : St} {r : Res α} (h : StackPres st r)
    (e : Evt) : StackPres st (⟨r.st, e :: r.tr, r.out⟩ : Res α) :=
  fun a ha => h a ha

/-- Stack restoration for the push-run-pop-merge shape of the reactor
body: the computation leaves the pushed frame on top, the pop removes
it, the merge preserves the stack. -/
theorem stackPres_popComp {st : St} (rid : Nat) {rc : Res (List (String × Val))}
    {f : St → List (String × Val) → Res Unit}
    (hC : ∀ res, rc.out = .ok res → rc.st.computeStack = rid :: st.computeStack)
    (hA : ∀ res, rc.out = .ok res → StackPres (popFrame rc.st) (f rc.st res)) :
    StackPres st (bindR rc f) := by
  intro a ha
  cases hr : rc.out with
  | error e =>
    rw [bindR_out_error hr] at ha
    cases ha
  | ok res =>
    have ha' : (f rc.st res).out = .ok a := by
      rw [← bindR_out_ok hr]
      exact ha
    rw [bindR_st_ok hr]
    rw [hA res hr a ha']
    show rc.st.computeStack.tail = st.computeStack
    rw [hC res hr]
    rfl

/-- Stack restoration and registration tracking for every interpreter
entry point, for every fuel: a normally-returning step restores the
dependency tracker stack, and any forward edge present afterwards was
present before or has its registration event in the trace. -/
theorem interpBundle : ∀ (fuel : Nat) (fns : Nat → FnCode),
    (∀ st l, StackPres st (runListeners fuel fns st l) ∧ GrowReg st (runListeners fuel fns st l))
  ∧ (∀ st s p, StackPres st (notifySet fuel fns st s p) ∧ GrowReg st (notifySet fuel fns st s p))
  ∧ (∀ st rid, StackPres st (reactor fuel fns st rid) ∧ GrowReg st (reactor fuel fns st rid))
  ∧ (∀ st out kvs, StackPres st (runAssign fuel fns st out kvs) ∧ GrowReg st (runAssign fuel fns st out kvs))
  ∧ (∀ st s p v, StackPres st (signalSet fuel fns st s p v) ∧ GrowReg st (signalSet fuel fns st s p v))
  ∧ (∀ st s p, StackPres st (signalDelete st s p) ∧ GrowReg st (signalDelete st s p))
  ∧ (∀ st f, StackPres st (update fuel fns st f) ∧ GrowReg st (update fuel fns st f))
  ∧ (∀ st c, StackPres st (runCode fuel fns st c) ∧ GrowReg st (runCode fuel fns st c)) := by
  intro fuel
  induction fuel with
  | zero =>
    intro fns
    refine ⟨?_, ?_, ?_, ?_, ?_, ?_, ?_, ?_⟩
    · intro st l
      cases l with
      | nil =>
        simp only [runListeners]
        exact ⟨stackPres_same, growReg_same⟩
      | cons rid rest =>
        simp only [runListeners]
        exact ⟨stackPres_same, growReg_same⟩
    · intro st s p
      simp only [notifySet]
      exact ⟨stackPres_same, growReg_same⟩
    · intro st rid
      simp only [reactor]
      exact ⟨stackPres_same, growReg_same⟩
    · intro st out kvs
      cases kvs with
      | nil =>
        simp only [runAssign]
        exact ⟨stackPres_same, growReg_same⟩
      | cons kv rest =>
        rcases kv with ⟨q, v⟩
        simp only [runAssign]
        exact ⟨stackPres_same, growReg_same⟩
    · intro st s p v
      simp only [signalSet]
      exact ⟨stackPres_same, growReg_same⟩
    · intro st s p
      exact ⟨stackPres_signalDelete st s p, growReg_signalDelete st s p⟩
    · intro st f
      simp only [update]
      exact ⟨stackPres_same, growReg_same⟩
    · intro st c
      cases c with
      | ret result =>
        simp only [runCode]
        exact ⟨stackPres_same, growReg_same⟩
      | getS s p k =>
        simp only [runCode]
        exact ⟨stackPres_same, growReg_same⟩
      | setS s p v k =>
        simp only [runCode]
        exact ⟨stackPres_same, growReg_same⟩
      | delS s p k =>
        simp only [runCode]
        exact ⟨stackPres_same, growReg_same⟩
      | callUpdate g k =>
        simp only [runCode]
        exact ⟨stackPres_same, growReg_same⟩
      | rawGet o p k =>
        simp only [runCode]
        exact ⟨stackPres_same, growReg_same⟩
      | rawSet o p v k =>
        simp only [runCode]
        exact ⟨stackPres_same, growReg_same⟩
  | succ fuel ih =>
    intro fns
    obtain ⟨ihL, ihN, ihR, ihA, ihS, ihD, ihU, ihC⟩ := ih fns
    refine ⟨?_, ?_, ?_, ?_, ?_, ?_, ?_, ?_⟩
    · -- runListeners
      intro st l
      cases l with
      | nil =>
        simp only [runListeners]
        exact ⟨stackPres_same, growReg_same⟩
      | cons rid rest =>
        simp only [runListeners]
        exact ⟨stackPres_bindR (ihR st rid).1 (fun a _ => (ihL _ rest).1),
               growReg_bindR (ihR st rid).2 (fun a _ => (ihL _ rest).2)⟩
    · -- notifySet
      intro st s p
      simp only [notifySet]
      exact ihL st (getListeners st s p)
    · -- reactor
      intro st rid
      simp only [reactor]
      constructor
      · refine stackPres_consTr (stackPres_popComp rid ?_ ?_) (Evt.invoke rid)
        · intro res hres
          rw [(ihC (reactorEnv st rid) (fns (reactorFn st rid))).1 res hres]
          exact reactorEnv_computeStack st rid
        · intro res _
          exact (ihA _ (reactorOut st rid) res).1
      · refine growReg_consTr (growReg_bindR ?_ ?_) (Evt.invoke rid) _
        · exact growReg_of_fwd_sub
            (fun c s p hc => mem_getListeners_clearListeners hc)
            (ihC (reactorEnv st rid) (fns (reactorFn st rid))).2
        · intro res _
          exact growReg_of_fwd_eq (fun s p => getListeners_popFrame _ s p)
            (ihA _ (reactorOut st rid) res).2
    · -- runAssign
      intro st out kvs
      cases kvs with
      | nil =>
        simp only [runAssign]
        exact ⟨stackPres_same, growReg_same⟩
      | cons kv rest =>
        rcases kv with ⟨q, v⟩
        simp only [runAssign]
        exact ⟨stackPres_bindR (ihS st out q v).1 (fun a _ => (ihA _ out rest).1),
               growReg_bindR (ihS st out q v).2 (fun a _ => (ihA _ out rest).2)⟩
    · -- signalSet
      intro st s p v
      by_cases he : objRead (targetObj st s) p = v
      · simp only [signalSet]
        rw [if_pos he]
        exact ⟨stackPres_same, growReg_same⟩
      · simp only [signalSet]
        rw [if_neg he]
        constructor
        · intro a ha
          exact ((ihN (writeOwn st s p v) s p).1 a ha).trans (writeOwn_computeStack st s p v)
        · exact growReg_consTr
            (growReg_of_fwd_eq (fun s' p' => getListeners_writeOwn st s p v s' p')
              (ihN (writeOwn st s p v) s p).2)
            (Evt.write s p) _
    · -- signalDelete
      intro st s p
      exact ⟨stackPres_signalDelete st s p, growReg_signalDelete st s p⟩
    · -- update
      intro st f
      by_cases hg : f ∈ st.reactStack
      · simp only [update]
        rw [if_pos hg]
        exact ⟨stackPres_same, growReg_same⟩
      · simp only [update]
        rw [if_neg hg]
        constructor
        · intro a ha
          have ha' : (reactor fuel fns (updSt st f) (updRid st f)).out.map
              (fun _ => updOut st f) = .ok a := ha
          cases hr : (reactor fuel fns (updSt st f) (updRid st f)).out with
          | error e =>
            rw [hr] at ha'
            simp only [Except.map] at ha'
            cases ha'
          | ok u =>
            exact ((ihR (updSt st f) (updRid st f)).1 u hr).trans (updSt_computeStack st f)
        · intro c s p hc
          rcases (ihR (updSt st f) (updRid st f)).2 c s p hc with h | h
          · exact Or.inl ((getListeners_congr (updSt_listeners st f) s p) ▸ h)
          · exact Or.inr h
    · -- runCode
      intro st c
      cases c with
      | ret result =>
        simp only [runCode]
        exact ⟨stackPres_same, growReg_same⟩
      | getS s p k =>
        simp only [runCode]
        exact ⟨stackPres_bindR (stackPres_signalGet st s p) (fun v _ => (ihC _ (k v)).1),
               growReg_bindR (growReg_signalGet st s p) (fun v _ => (ihC _ (k v)).2)⟩
      | setS s p v k =>
        simp only [runCode]
        exact ⟨stackPres_bindR (ihS st s p v).1 (fun a _ => (ihC _ k).1),
               growReg_bindR (ihS st s p v).2 (fun a _ => (ihC _ k).2)⟩
      | delS s p k =>
        simp only [runCode]
        exact ⟨stackPres_bindR (ihD st s p).1 (fun a _ => (ihC _ k).1),
               growReg_bindR (ihD st s p).2 (fun a _ => (ihC _ k).2)⟩
      | callUpdate g k =>
        simp only [runCode]
        exact ⟨stackPres_bindR (ihU st g).1 (fun a _ => (ihC _ (k a)).1),
               growReg_bindR (ihU st g).2 (fun a _ => (ihC _ (k a)).2)⟩
      | rawGet o p k =>
        simp only [runCode]
        exact ihC st (k (rawObjRead st o p))
      | rawSet o p v k =>
        simp only [runCode]
        constructor
        · intro a ha
          exact ((ihC (rawWrite st o p v) k).1 a ha).trans (rawWrite_computeStack st o p v)
        · exact growReg_of_fwd_eq (fun s' p' => getListeners_rawWrite st o p v s' p')
            (ihC (rawWrite st o p v) k).2

/-- Back sets only depend on the back map. -/
theorem backSignals_congr {st st' : St} (h : st'.computeMap = st.computeMap)
    (c : Nat) (p : String) : backSignals st' c p = backSignals st c p := by
  unfold backSignals
  rw [h]

/-- The executable invariant check is sound. -/
theorem invFB_of_check {st : St} (h : invFBcheck st = true) : InvFB st := by
  intro c s p hc
  unfold getListeners at hc
  cases h1 : getA st.listeners s with
  | none =>
    rw [h1] at hc
    simp [getA] at hc
  | some m =>
    rw [h1] at hc
    simp only [Option.getD_some] at hc
    cases h2 : getA m p with
    | none =>
      rw [h2] at hc
      simp at hc
    | some fw =>
      rw [h2] at hc
      simp only [Option.getD_some] at hc
      have hm1 : (s, m) ∈ st.listeners := getA_mem h1
      have hm2 : (p, fw) ∈ m := getA_mem h2
      unfold invFBcheck at h
      rw [List.all_eq_true] at h
      have h3 := h (s, m) hm1
      rw [List.all_eq_true] at h3
      have h4 := h3 (p, fw) hm2
      rw [List.all_eq_true] at h4
      exact of_decide_eq_true (h4 c hc)

/-- The executable duplicate-freedom check is sound. -/
theorem wfSets_of_check {st : St} (h : wfCheck st = true) : WFsets st := by
  intro s p
  unfold getListeners
  cases h1 : getA st.listeners s with
  | none => simp [getA]
  | some m =>
    simp only [Option.getD_some]
    cases h2 : getA m p with
    | none => simp
    | some fw =>
      simp only [Option.getD_some]
      have hm1 : (s, m) ∈ st.listeners := getA_mem h1
      have hm2 : (p, fw) ∈ m := getA_mem h2
      unfold wfCheck at h
      rw [List.all_eq_true] at h
      have h3 := h (s, m) hm1
      rw [List.all_eq_true] at h3
      exact of_decide_eq_true (h3 (p, fw) hm2)

/-- The empty state satisfies the full mutual-inverse invariant. -/
theorem inv_stEmpty : Inv stEmpty := by
  constructor
  · intro c s p hc
    simp [getListeners, stEmpty, getA] at hc
  · intro c s p hs
    simp [backSignals, stEmpty, getA] at hs

/-- The target of a signal after the set trap stores: same prototype,
own map updated at the written key. -/
theorem targetObj_writeOwn_self (st : St) (s : Nat) (p : String) (v : Val) :
    targetObj (writeOwn st s p v) s
      = ⟨setA (targetObj st s).own p v, (targetObj st s).proto⟩ := by
  unfold writeOwn targetObj targetOid
  simp [getA_setA_self]

/-- The target of a signal after the delete trap removes: same
prototype, own map with the key deleted. -/
theorem targetObj_deleteOwn_self (st : St) (s : Nat) (p : String) :
    targetObj (deleteOwn st s p) s
      = ⟨delA (targetObj st s).own p, (targetObj st s).proto⟩ := by
  unfold deleteOwn targetObj targetOid
  simp [getA_setA_self]

/-- A reactor at zero fuel reports exhaustion without touching state. -/
theorem reactor_zero (fns : Nat → FnCode) (st : St) (rid : Nat) :
    reactor 0 fns st rid = ⟨st, [], .error .outOfFuel⟩ := by
  simp [reactor]

/-- A reactor run with fuel always records its own invocation first. -/
theorem invoke_head_reactor (fuel : Nat) (fns : Nat → FnCode) (st : St) (rid : Nat) :
    Evt.invoke rid ∈ (reactor (fuel + 1) fns st rid).tr := by
  simp only [reactor]
  exact List.mem_cons_self _ _

/-- A reactor run that completed recorded its own invocation. -/
theorem invoke_mem_of_reactor_ok {fuel : Nat} {fns : Nat → FnCode} {st : St} {rid : Nat}
    {a : Unit} (h : (reactor fuel fns st rid).out = .ok a) :
    Evt.invoke rid ∈ (reactor fuel fns st rid).tr := by
  cases fuel with
  | zero =>
    rw [reactor_zero] at h
    cases h
  | succ g => exact invoke_head_reactor g fns st rid

/-- The notifySet loop, when it completes, invokes every reactor of the
snapshot it iterates (each exactly once, in order, by the loop shape). -/
theorem listeners_invoked : ∀ (fuel : Nat) (fns : Nat → FnCode) (st : St) (l : List Nat)
    (a : Unit), (runListeners fuel fns st l).out = .ok a →
    ∀ rid ∈ l, Evt.invoke rid ∈ (runListeners fuel fns st l).tr := by
  intro fuel
  induction fuel with
  | zero =>
    intro fns st l a h rid hrid
    cases l with
    | nil => simp at hrid
    | cons r0 rest =>
      simp only [runListeners] at h
      cases h
  | succ g ih =>
    intro fns st l a h rid hrid
    cases l with
    | nil => simp at hrid
    | cons r0 rest =>
      simp only [runListeners] at h ⊢
      cases hr : (reactor g fns st r0).out with
      | error e =>
        rw [bindR_out_error hr] at h
        cases h
      | ok u =>
        rw [bindR_tr_ok hr]
        rcases List.mem_cons.mp hrid with h0 | h0
        · subst h0
          exact List.mem_append.mpr (Or.inl (invoke_mem_of_reactor_ok hr))
        · rw [bindR_out_ok hr] at h
          exact List.mem_append.mpr (Or.inr (ih fns _ rest a h rid h0))

/-- If the notify loop recorded no invocation, it ran no reactor and
left the state untouched. -/
theorem runListeners_noInvoke : ∀ (fuel : Nat) (fns : Nat → FnCode) (st : St) (l : List Nat),
    (∀ e ∈ (runListeners fuel fns st l).tr, isInvoke e = false) →
    (runListeners fuel fns st l).st = st := by
  intro fuel fns st l h
  cases l with
  | nil => simp only [runListeners]
  | cons r0 rest =>
    cases fuel with
    | zero => simp only [runListeners]
    | succ g =>
      cases g with
      | zero =>
        have h0 : (reactor 0 fns st r0).out = .error .outOfFuel := by
          rw [reactor_zero]
        simp only [runListeners]
        rw [bindR_st_error h0, reactor_zero]
      | succ g2 =>
        exfalso
        have hmem : Evt.invoke r0 ∈ (runListeners (g2 + 1 + 1) fns st (r0 :: rest)).tr := by
          simp only [runListeners]
          cases hr : (reactor (g2 + 1) fns st r0).out with
          | error e =>
            rw [bindR_tr_error hr]
            exact invoke_head_reactor g2 fns st r0
          | ok u =>
            rw [bindR_tr_ok hr]
            exact List.mem_append.mpr (Or.inl (invoke_head_reactor g2 fns st r0))
        have := h _ hmem
        simp [isInvoke] at this

/-- If notifySet recorded no invocation, the state is untouched. -/
theorem notifySet_noInvoke : ∀ (fuel : Nat) (fns : Nat → FnCode) (st : St) (s : Nat)
    (p : String), (∀ e ∈ (notifySet fuel fns st s p).tr, isInvoke e = false) →
    (notifySet fuel fns st s p).st = st := by
  intro fuel fns st s p h
  cases fuel with
  | zero => simp only [notifySet]
  | succ g =>
    simp only [notifySet] at h ⊢
    exact runListeners_noInvoke g fns st _ h

/-- A set trap whose run invoked no reactor leaves every own property
other than the written one unchanged. -/
theorem signalSet_own_keep : ∀ (fuel : Nat) (fns : Nat → FnCode) (st : St) (s : Nat)
    (p : String) (v : Val) (k : String),
    (∀ e ∈ (signalSet fuel fns st s p v).tr, isInvoke e = false) →
    k ≠ p →
    getA (targetObj (signalSet fuel fns st s p v).st s).own k
      = getA (targetObj st s).own k := by
  intro fuel fns st s p v k h hk
  cases fuel with
  | zero => simp only [signalSet]
  | succ g =>
    by_cases he : objRead (targetObj st s) p = v
    · simp only [signalSet]
      rw [if_pos he]
    · simp only [signalSet] at h ⊢
      rw [if_neg he] at h ⊢
      have h2 : ∀ e ∈ (notifySet g fns (writeOwn st s p v) s p).tr, isInvoke e = false := by
        intro e he2
        exact h e (List.mem_cons_of_mem _ he2)
      show getA (targetObj (notifySet g fns (writeOwn st s p v) s p).st s).own k
        = getA (targetObj st s).own k
      rw [notifySet_noInvoke g fns (writeOwn st s p v) s p h2]
      rw [targetObj_writeOwn_self]
      exact getA_setA_ne _ _ _ _ (fun hh => hk hh.symm)

/-- C1: evaluation of the code at the failing input.  The first
top-level update of function 0 succeeds and returns output signal 1,
but fn is left on the run-guard stack (never popped), so the second
top-level update of the same function throws the recursive-invocation
error instead of returning the memoized output signal. -/
theorem c1_double_update :
    (update 5 fnsTriv stEmpty 0).out = .ok 1
    ∧ (update 5 fnsTriv stEmpty 0).st.reactStack = [0]
    ∧ (update 5 fnsTriv (update 5 fnsTriv stEmpty 0).st 0).out
        = .error (.recursiveReact 0) := by
  decide

/-- C2 counterexample: a reactor that reads s.p and writes s.p to a
strictly different value loops back to itself through notifySet before
the outer call returns, and the system does NOT raise the
RecursiveInvocation error: it recurses until the fuel bound (standing
for the host stack) is exhausted. -/
theorem c2_counterexample :
    (update 40 fnsSelf stOneSig 1).out = .error .outOfFuel
    ∧ (update 40 fnsSelf stOneSig 1).out ≠ .error (.recursiveReact 1) := by
  decide

/-- C2 (amended): the RecursiveInvocation error is raised exactly by a
reentrant update call: whenever update(fn) runs while fn is already on
the run-guard stack it throws the error carrying fn as context and
changes nothing; a re-run triggered through notifySet performs no such
check. -/
theorem c2_amended : ∀ (fuel : Nat) (fns : Nat → FnCode) (st : St) (g : Nat),
    g ∈ st.reactStack →
    update (fuel + 1) fns st g = ⟨st, [], .error (.recursiveReact g)⟩ := by
  intro fuel fns st g h
  simp only [update]
  rw [if_pos h]

/-- C2 amended witness: the guard fires at a concrete guarded state. -/
theorem c2_amended_witness :
    (0 : Nat) ∈ stGuard.reactStack
    ∧ update 1 fnsTriv stGuard 0 = ⟨stGuard, [], .error (.recursiveReact 0)⟩ :=
  ⟨by decide, c2_amended 0 fnsTriv stGuard 0 (by decide)⟩

/-- C3 counterexample: after registering the edge (signal 10, p) for
reactor 20 and then clearing all edges of reactor 20, the back-edge set
of reactor 20 still holds signal 10 while the forward set is empty: the
mutual-inverse invariant fails after the clear mutation, because
clearListeners does not empty the back-edge set. -/
theorem c3_counterexample :
    10 ∈ backSignals stCleared 20 propP
    ∧ 20 ∉ getListeners stCleared 10 propP
    ∧ backSignals stCleared 20 propP ≠ [] := by
  decide

/-- C3 (amended): registering an edge preserves the full mutual-inverse
invariant in both directions; clearing all edges of a reactor removes
it from every forward set, but leaves the back-edge set untouched, so
after a clear only the forward-to-back direction of the invariant is
guaranteed. -/
theorem c3_amended : ∀ (st : St) (s : Nat) (p : String) (c : Nat),
    (Inv st → Inv (setListeners st s p c))
    ∧ (InvFB st → InvFB (clearListeners st c))
    ∧ (InvFB st → ∀ s' p', c ∉ getListeners (clearListeners st c) s' p') := by
  intro st s p c
  refine ⟨?_, ?_, ?_⟩
  · rintro ⟨hfb, hbf⟩
    constructor
    · intro c' s' p' hc
      rcases mem_getListeners_setListeners hc with h | ⟨h1, h2, h3⟩
      · exact backSignals_setListeners_mono (hfb c' s' p' h)
      · subst h1
        subst h2
        subst h3
        rw [backSignals_setListeners_self]
        exact self_mem_addToSet _ _
    · intro c' s' p' hs
      by_cases hcp : c' = c ∧ p' = p
      · rcases hcp with ⟨h1, h2⟩
        subst h1
        subst h2
        rw [backSignals_setListeners_self] at hs
        rcases mem_addToSet.mp hs with h | h
        · exact getListeners_setListeners_mono (hbf c' s' p' h)
        · subst h
          rw [getListeners_setListeners_self]
          exact self_mem_addToSet _ _
      · rw [backSignals_setListeners_ne st s p c c' p' hcp] at hs
        exact getListeners_setListeners_mono (hbf c' s' p' hs)
  · intro hfb c' s' p' hc
    rw [backSignals_congr (clearListeners_computeMap st c)]
    exact hfb c' s' p' (mem_getListeners_clearListeners hc)
  · intro hfb s' p'
    exact clearListeners_wipe hfb s' p'

/-- C3 amended witness: the invariant facts at concrete graphs. -/
theorem c3_amended_witness :
    Inv stEmpty ∧ Inv (setListeners stEmpty 10 propP 20)
    ∧ InvFB stReg ∧ InvFB (clearListeners stReg 20)
    ∧ 20 ∉ getListeners (clearListeners stReg 20) 10 propP :=
  ⟨inv_stEmpty,
   (c3_amended stEmpty 10 propP 20).1 inv_stEmpty,
   invFB_of_check (by decide),
   (c3_amended stReg 10 propP 20).2.1 (invFB_of_check (by decide)),
   (c3_amended stReg 10 propP 20).2.2 (invFB_of_check (by decide)) 10 propP⟩

/-- C4 counterexample: in the cascade state, reactor 21 read s.p during
its last run (it is subscribed to (signal 10, p)), yet a single write of
a new value to s.p invokes reactor 21 twice before the write returns:
once through the cascaded write performed by reactor 20, and once more
by the main notification loop.  The claimed "re-runs exactly once, for
all prior states" is false. -/
theorem c4_counterexample :
    21 ∈ getListeners stCasc 10 propP
    ∧ objRead (targetObj stCasc 10) propP ≠ Val.num 5
    ∧ (signalSet 25 fnsCasc stCasc 10 propP (Val.num 5)).out = .ok ()
    ∧ ((signalSet 25 fnsCasc stCasc 10 propP (Val.num 5)).tr.count (Evt.invoke 21)) = 2 := by
  decide

/-- C4 (amended): a write notifies if and only if the new value is
strictly unequal to the stored one: an equal write returns the state
unchanged with no events; an unequal write records the store and, when
the write completes, invokes every reactor subscribed to (s, p) at
least once before returning, the notification snapshot being
duplicate-free (registration keeps forward sets duplicate-free).
Cascaded writes during the propagation may invoke the same reactor
again. -/
theorem c4_amended : ∀ (fuel : Nat) (fns : Nat → FnCode) (st : St) (s : Nat)
    (p : String) (v : Val),
    (objRead (targetObj st s) p = v → signalSet (fuel + 1) fns st s p v = ⟨st, [], .ok ()⟩)
    ∧ (objRead (targetObj st s) p ≠ v →
        Evt.write s p ∈ (signalSet (fuel + 1) fns st s p v).tr
        ∧ ∀ a, (signalSet (fuel + 1) fns st s p v).out = .ok a →
            ∀ rid ∈ getListeners st s p,
              Evt.invoke rid ∈ (signalSet (fuel + 1) fns st s p v).tr)
    ∧ (∀ c, WFsets st → WFsets (setListeners st s p c)) := by
  intro fuel fns st s p v
  refine ⟨?_, ?_, ?_⟩
  · intro he
    simp only [signalSet]
    rw [if_pos he]
  · intro he
    constructor
    · simp only [signalSet]
      rw [if_neg he]
      exact List.mem_cons_self _ _
    · intro a ha rid hrid
      simp only [signalSet] at ha ⊢
      rw [if_neg he] at ha ⊢
      have ha' : (notifySet fuel fns (writeOwn st s p v) s p).out = .ok a := ha
      cases fuel with
      | zero =>
        rw [show (notifySet 0 fns (writeOwn st s p v) s p).out = .error .outOfFuel
          from by simp [notifySet]] at ha'
        cases ha'
      | succ g =>
        have hmem : Evt.invoke rid
            ∈ (runListeners g fns (writeOwn st s p v)
                (getListeners (writeOwn st s p v) s p)).tr := by
          apply listeners_invoked g fns (writeOwn st s p v) _ a
          · exact ha'
          · rw [getListeners_writeOwn]
            exact hrid
        exact List.mem_cons_of_mem _ hmem
  · intro c hwf s' p'
    by_cases hsp : s' = s ∧ p' = p
    · rcases hsp with ⟨h1, h2⟩
      subst h1
      subst h2
      rw [getListeners_setListeners_self]
      exact nodup_addToSet c (hwf s' p')
    · rw [getListeners_setListeners_ne st s p c s' p' hsp]
      exact hwf s' p'

/-- C4 amended witness: the amended facts at the cascade state. -/
theorem c4_amended_witness :
    objRead (targetObj stCasc 10) propP ≠ Val.num 5
    ∧ Evt.write 10 propP ∈ (signalSet 25 fnsCasc stCasc 10 propP (Val.num 5)).tr
    ∧ Evt.invoke 21 ∈ (signalSet 25 fnsCasc stCasc 10 propP (Val.num 5)).tr
    ∧ WFsets (setListeners stCasc 10 propP 99) :=
  ⟨by decide,
   ((c4_amended 24 fnsCasc stCasc 10 propP (Val.num 5)).2.1 (by decide)).1,
   ((c4_amended 24 fnsCasc stCasc 10 propP (Val.num 5)).2.1 (by decide)).2 ()
     (by decide) 21 (by decide),
   (c4_amended 24 fnsCasc stCasc 10 propP (Val.num 5)).2.2 99
     (wfSets_of_check (by decide))⟩

/-- C5 counterexample: a top-level, non-reentrant update whose
computation throws (here: by reentrantly calling update on its own
function) leaves the reactor frame on the dependency tracker stack:
the pop is skipped on the throwing path, so the stack is not empty
after the top-level call. -/
theorem c5_counterexample :
    stEmpty.computeStack = []
    ∧ (1 : Nat) ∉ stEmpty.reactStack
    ∧ (update 10 fnsReent stEmpty 1).out = .error (.recursiveReact 1)
    ∧ (update 10 fnsReent stEmpty 1).st.computeStack = [2] := by
  decide

/-- C5 (amended): the reactor body pushes itself before the computation
and pops itself after it on the normal-return path only; whenever a
top-level update completes without an error, the dependency tracker
stack is restored to what it was before the call (in particular it is
empty afterwards if it was empty before), but a throwing computation
skips the pop. -/
theorem c5_amended : ∀ (fuel : Nat) (fns : Nat → FnCode) (st : St) (f : Nat) (a : Nat),
    (update fuel fns st f).out = .ok a →
    (update fuel fns st f).st.computeStack = st.computeStack :=
  fun fuel fns st f a h =>
    ((interpBundle fuel fns).2.2.2.2.2.2.1 st f).1 a h

/-- C5 amended witness: a completing update restores the stack. -/
theorem c5_amended_witness :
    (update 5 fnsTriv stEmpty 0).out = .ok 1
    ∧ (update 5 fnsTriv stEmpty 0).st.computeStack = stEmpty.computeStack :=
  ⟨by decide, c5_amended 5 fnsTriv stEmpty 0 1 (by decide)⟩

/-- C6 counterexample, refuting both halves of the claimed equivalence.
First: a property that exists on the signal's target with the stored
value undefined — the trap's guard (typeof target[p] !== 'undefined')
is false, so nothing is removed and nothing notified although the
property currently exists.  Second: a property that exists with a
defined value and has a subscribed listener (reactor 20) — the delete
removes it, but the run emits no event at all (in particular no
invocation of reactor 20): the trap's notifySet receives an undefined
receiver and can never notify, so "invokes write-notification if the
property exists" also fails. -/
theorem c6_counterexample :
    objHasOwn (targetObj stUndefProp 10) propP = true
    ∧ signalDelete stUndefProp 10 propP = ⟨stUndefProp, [], .ok ()⟩
    ∧ 20 ∈ getListeners stStale 10 propP
    ∧ objHasOwn (targetObj stStale 10) propP = true
    ∧ signalDelete stStale 10 propP = ⟨deleteOwn stStale 10 propP, [], .ok ()⟩
    ∧ objHasOwn (targetObj (signalDelete stStale 10 propP).st 10) propP = false := by
  decide

/-- C6 (amended): the delete trap removes the own property if and only
if the value currently read at target[p] (through the prototype chain)
is not undefined; in every case it triggers no listener, emits no
event, and raises no error in a sloppy-mode caller — the trap hands an
undefined receiver to notifySet, whose listener lookup on undefined is
always empty.  (In a strict-mode caller the delete statement
additionally throws a TypeError at the call site, because the trap
returns no value.) -/
theorem c6_amended : ∀ (st : St) (s : Nat) (p : String),
    (objRead (targetObj st s) p = .undefined → signalDelete st s p = ⟨st, [], .ok ()⟩)
    ∧ (objRead (targetObj st s) p ≠ .undefined →
        signalDelete st s p = ⟨deleteOwn st s p, [], .ok ()⟩
        ∧ objHasOwn (targetObj (deleteOwn st s p) s) p = false)
    ∧ (signalDelete st s p).tr = []
    ∧ (signalDelete st s p).out = .ok () := by
  intro st s p
  refine ⟨?_, ?_, ?_, ?_⟩
  · intro he
    unfold signalDelete
    rw [if_pos he]
  · intro he
    constructor
    · unfold signalDelete
      rw [if_neg he]
    · rw [targetObj_deleteOwn_self]
      simp [objHasOwn, getA_delA_self]
  · unfold signalDelete
    split
    · rfl
    · rfl
  · unfold signalDelete
    split
    · rfl
    · rfl

/-- C6 amended witness: both directions at concrete states. -/
theorem c6_amended_witness :
    objRead (targetObj stNumProp 10) propP ≠ Val.undefined
    ∧ signalDelete stNumProp 10 propP = ⟨deleteOwn stNumProp 10 propP, [], .ok ()⟩
    ∧ objHasOwn (targetObj (deleteOwn stNumProp 10 propP) 10) propP = false
    ∧ objRead (targetObj stUndefProp 10) propP = Val.undefined
    ∧ signalDelete stUndefProp 10 propP = ⟨stUndefProp, [], .ok ()⟩
    ∧ (signalDelete stStale 10 propP).tr = [] :=
  ⟨by decide,
   ((c6_amended stNumProp 10 propP).2.1 (by decide)).1,
   ((c6_amended stNumProp 10 propP).2.1 (by decide)).2,
   by decide,
   (c6_amended stUndefProp 10 propP).1 (by decide),
   (c6_amended stStale 10 propP).2.2.1⟩

/-- C7: stale-edge pruning.  For any state satisfying the
forward-to-back invariant, if reactor rid is subscribed to (s, p) from
its previous run and a run of the reactor registers no edge for rid on
(s, p) (the computation does not read s.p), then after the run rid is
no longer in the forward set of (s, p): the subscription was dropped by
the clear at the start of the run and never re-added, so a subsequent
write to s.p does not snapshot rid into its notification loop. -/
theorem c7_stale_edge : ∀ (fuel : Nat) (fns : Nat → FnCode) (st : St) (rid : Nat)
    (s : Nat) (p : String),
    InvFB st →
    rid ∈ getListeners st s p →
    Evt.reg rid s p ∉ (reactor (fuel + 1) fns st rid).tr →
    rid ∉ getListeners (reactor (fuel + 1) fns st rid).st s p := by
  intro fuel fns st rid s p hinv _ hreg hmem
  simp only [reactor] at hmem hreg
  have hG : GrowReg (reactorEnv st rid)
      (bindR (runCode fuel fns (reactorEnv st rid) (fns (reactorFn st rid)))
        (fun stc result => runAssign fuel fns (popFrame stc) (reactorOut st rid) result)) := by
    obtain ⟨ihL, ihN, ihR, ihA, ihS, ihD, ihU, ihC⟩ := interpBundle fuel fns
    exact growReg_bindR (ihC _ _).2
      (fun res _ => growReg_of_fwd_eq (fun s' p' => getListeners_popFrame _ s' p')
        (ihA _ (reactorOut st rid) res).2)
  rcases hG rid s p hmem with h | h
  · rw [getListeners_reactorEnv] at h
    exact clearListeners_wipe hinv s p h
  · exact hreg (List.mem_cons_of_mem _ h)

/-- C7 witness: the stale subscription of reactor 20 on (signal 10, p)
is dropped by a run whose computation reads nothing. -/
theorem c7_witness :
    InvFB stStale
    ∧ 20 ∈ getListeners stStale 10 propP
    ∧ Evt.reg 20 10 propP ∉ (reactor 5 fnsTriv stStale 20).tr
    ∧ 20 ∉ getListeners (reactor 5 fnsTriv stStale 20).st 10 propP :=
  ⟨invFB_of_check (by decide), by decide, by decide,
   c7_stale_edge 4 fnsTriv stStale 20 10 propP (invFB_of_check (by decide))
     (by decide) (by decide)⟩

/-- C8 counterexample: a signal whose target inherits p = 1 from its
prototype.  The get trap registers a dependency and forwards the
inherited value, but the has trap returns false although the underlying
membership result (the in operator, prototype chain included) is true —
it uses Object.hasOwn.  Moreover has never performs the claimed
read-notification with (s, p): evaluated inside a running reactor it
registers nothing and throws the host TypeError (WeakMap.set with the
undefined receiver), while get in the same state does register the
edge. -/
theorem c8_counterexample :
    hasChain (targetObj stProto 10) propP = true
    ∧ (signalHas stProto 10 propP).out = .ok false
    ∧ (signalGet stProto 10 propP).out = .ok (.num 1)
    ∧ (signalHas stProtoReactor 10 propP).out = .error .typeError
    ∧ (signalHas stProtoReactor 10 propP).tr = []
    ∧ (signalGet stProtoReactor 10 propP).tr = [Evt.reg 20 10 propP] := by
  decide

/-- C8 (amended): get first invokes the tracker's read-notification
with (this signal, p) and then forwards target[p] unchanged, including
values inherited through the prototype chain.  has performs no
read-notification with (s, p) at all — the trap receives only (target,
property), so its receiver is undefined: outside any reactor it returns
Object.hasOwn(target, p), own-property membership excluding the
prototype chain, and inside a reactor the attempted registration on the
undefined receiver throws the host TypeError with no state change. -/
theorem c8_amended : ∀ (st : St) (s : Nat) (p : String),
    (signalGet st s p).st = (notifyGet st s p).1
    ∧ (signalGet st s p).tr = (notifyGet st s p).2
    ∧ (signalGet st s p).out = .ok (objRead (targetObj st s) p)
    ∧ (st.computeStack = [] →
        signalHas st s p = ⟨st, [], .ok (objHasOwn (targetObj st s) p)⟩)
    ∧ (st.computeStack ≠ [] → signalHas st s p = ⟨st, [], .error .typeError⟩)
    ∧ (∀ o : Obj, getA o.own p = none → objHasOwn o p = false)
    ∧ (∀ (o : Obj) (v : Val), getA o.own p = none → getA o.proto p = some v →
        objRead o p = v) := by
  intro st s p
  refine ⟨rfl, rfl, ?_, ?_, ?_, ?_, ?_⟩
  · simp [signalGet, targetObj_notifyGet]
  · intro h
    simp only [signalHas, h]
  · intro h
    cases hcs : st.computeStack with
    | nil => exact absurd hcs h
    | cons c rest => simp only [signalHas, hcs]
  · intro o h
    simp [objHasOwn, h]
  · intro o v h1 h2
    simp [objRead, h1, h2]

/-- C8 amended witness: the trap results at the prototype state,
outside and inside a reactor. -/
theorem c8_amended_witness :
    (signalGet stProto 10 propP).out = .ok (objRead (targetObj stProto 10) propP)
    ∧ stProto.computeStack = []
    ∧ signalHas stProto 10 propP = ⟨stProto, [], .ok (objHasOwn (targetObj stProto 10) propP)⟩
    ∧ stProtoReactor.computeStack ≠ []
    ∧ signalHas stProtoReactor 10 propP = ⟨stProtoReactor, [], .error .typeError⟩
    ∧ objHasOwn ⟨[], [(propP, Val.num 1)]⟩ propP = false
    ∧ objRead ⟨[], [(propP, Val.num 1)]⟩ propP = Val.num 1 :=
  ⟨(c8_amended stProto 10 propP).2.2.1,
   by decide,
   (c8_amended stProto 10 propP).2.2.2.1 (by decide),
   by decide,
   (c8_amended stProtoReactor 10 propP).2.2.2.2.1 (by decide),
   (c8_amended stProto 10 propP).2.2.2.2.2.1 ⟨[], [(propP, Val.num 1)]⟩ (by decide),
   (c8_amended stProto 10 propP).2.2.2.2.2.2 ⟨[], [(propP, Val.num 1)]⟩ (Val.num 1)
     (by decide) (by decide)⟩

/-- C9: a property whose stored value is an object reference is
returned by the get trap as that raw reference, with no wrapping; and
raw (non-proxied) access to a plain object emits no events, registers
no dependency edges, and triggers no notification: only proxied
top-level properties are reactive. -/
theorem c9_raw_object : ∀ (st : St) (s : Nat) (p : String) (oid : Nat),
    objRead (targetObj st s) p = .obj oid →
    (signalGet st s p).out = .ok (.obj oid)
    ∧ (∀ (fuel : Nat) (fns : Nat → FnCode) (o : Nat) (q : String) (v : Val)
        (res : List (String × Val)),
        (runCode (fuel + 1) fns st (.rawSet o q v (.ret res))).tr = []
        ∧ (runCode (fuel + 1) fns st (.rawSet o q v (.ret res))).st.listeners = st.listeners
        ∧ (runCode (fuel + 1) fns st (.rawSet o q v (.ret res))).st.computeMap = st.computeMap
        ∧ (runCode (fuel + 1) fns st (.rawSet o q v (.ret res))).out = .ok res)
    ∧ (∀ (fuel : Nat) (fns : Nat → FnCode) (o : Nat) (q : String),
        (runCode (fuel + 1) fns st (.rawGet o q (fun w => .ret [(propA, w)]))).tr = []
        ∧ (runCode (fuel + 1) fns st (.rawGet o q (fun w => .ret [(propA, w)]))).st = st
        ∧ (runCode (fuel + 1) fns st (.rawGet o q (fun w => .ret [(propA, w)]))).out
            = .ok [(propA, rawObjRead st o q)]) := by
  intro st s p oid h
  refine ⟨?_, ?_, ?_⟩
  · simp [signalGet, targetObj_notifyGet, h]
  · intro fuel fns o q v res
    refine ⟨?_, ?_, ?_, ?_⟩ <;> simp [runCode, rawWrite]
  · intro fuel fns o q
    refine ⟨?_, ?_, ?_⟩ <;> simp [runCode]

/-- C9 witness: a nested object reference flows through the get trap
unwrapped, and raw access to it is inert. -/
theorem c9_witness :
    objRead (targetObj stNested 10) propP = Val.obj 7
    ∧ (signalGet stNested 10 propP).out = .ok (Val.obj 7)
    ∧ (runCode 3 fnsTriv stNested (.rawSet 7 propQ (Val.num 9) (.ret []))).tr = []
    ∧ (runCode 3 fnsTriv stNested (.rawSet 7 propQ (Val.num 9) (.ret []))).st.listeners
        = stNested.listeners :=
  ⟨by decide,
   (c9_raw_object stNested 10 propP 7 (by decide)).1,
   ((c9_raw_object stNested 10 propP 7 (by decide)).2.1 2 fnsTriv 7 propQ (Val.num 9) []).1,
   ((c9_raw_object stNested 10 propP 7 (by decide)).2.1 2 fnsTriv 7 propQ (Val.num 9) []).2.1⟩

/-- C10: the merge of a reactor's result object into its output signal
only overwrites the keys present in the result: provided the merge
triggers no reactor invocation (no cascaded run writes the output), any
own property of the output signal whose key is absent from the result
keeps exactly its previous binding — present keys from earlier runs
persist with their previous values. -/
theorem c10_merge_preserves : ∀ (kvs : List (String × Val)) (fuel : Nat)
    (fns : Nat → FnCode) (st : St) (out : Nat) (k : String),
    k ∉ kvs.map Prod.fst →
    (∀ e ∈ (runAssign fuel fns st out kvs).tr, isInvoke e = false) →
    getA (targetObj (runAssign fuel fns st out kvs).st out).own k
      = getA (targetObj st out).own k := by
  intro kvs
  induction kvs with
  | nil =>
    intro fuel fns st out k _ _
    simp only [runAssign]
  | cons kv rest ih =>
    rcases kv with ⟨q, v⟩
    intro fuel fns st out k hk h
    rw [List.map_cons] at hk
    have hkq : k ≠ q := fun hh => hk (by rw [hh]; exact List.mem_cons_self _ _)
    have hkr : k ∉ rest.map Prod.fst := fun hh => hk (List.mem_cons_of_mem _ hh)
    cases fuel with
    | zero => simp only [runAssign]
    | succ g =>
      simp only [runAssign] at h ⊢
      cases hr : (signalSet g fns st out q v).out with
      | error e =>
        rw [bindR_st_error hr]
        apply signalSet_own_keep g fns st out q v k ?_ hkq
        intro e2 he2
        apply h
        rw [bindR_tr_error hr]
        exact he2
      | ok u =>
        rw [bindR_st_ok hr]
        have hsig : ∀ e ∈ (signalSet g fns st out q v).tr, isInvoke e = false := by
          intro e2 he2
          apply h
          rw [bindR_tr_ok hr]
          exact List.mem_append.mpr (Or.inl he2)
        have hrest : ∀ e ∈ (runAssign g fns (signalSet g fns st out q v).st out rest).tr,
            isInvoke e = false := by
          intro e2 he2
          apply h
          rw [bindR_tr_ok hr]
          exact List.mem_append.mpr (Or.inr he2)
        exact (ih g fns (signalSet g fns st out q v).st out k hkr hrest).trans
          (signalSet_own_keep g fns st out q v k hsig hkq)

/-- C10 witness: merging a = 2 into the output leaves the earlier key
b = 7 untouched. -/
theorem c10_witness :
    propB ∉ ([(propA, Val.num 2)] : List (String × Val)).map Prod.fst
    ∧ (∀ e ∈ (runAssign 5 fnsTriv stMerge 10 [(propA, Val.num 2)]).tr, isInvoke e = false)
    ∧ getA (targetObj (runAssign 5 fnsTriv stMerge 10 [(propA, Val.num 2)]).st 10).own propB
        = getA (targetObj stMerge 10).own propB :=
  ⟨by decide, by decide,
   c10_merge_preserves [(propA, Val.num 2)] 5 fnsTriv stMerge 10 propB
     (by decide) (by decide)⟩

end SignalReact
